import Mathlib

/-!
Verification of the monitor-side placement-group map (`src/mon/PGMap.h`).

The C++ class `PGMap` is shallowly embedded:
* `hash_map` / `map` fields become association lists `List (Nat × α)`
  (keys are `pg_t` / osd ids, both modelled as `Nat`);
* `set<pg_t>` / `set<int>` fields become `Finset Nat` (the delta's removal
  set is kept as a `List Nat`, processed in order like the C++ iteration);
* the ten `int64_t` / histogram aggregate counters are gathered in one
  record `PGStats` so that "the aggregate counters" can be named as a unit;
  C++ signed-integer arithmetic is modelled by `Int` (no overflow is
  exercised by the claims);
* `assert` becomes an `Option` result: `none` models the fatal abort,
  which in the source happens before any mutation;
* the bufferlist codec is modelled by a token stream `List Nat`.
-/

/-- Association-list lookup, first matching key (mirrors `std::map::operator[]`
reads and `count` checks; all stores keep keys unique). -/
def alookup {α : Type} : List (Nat × α) → Nat → Option α
  | [], _ => none
  | (k', v) :: t, k => if k' = k then some v else alookup t k

/-- Lookup with a default, mirroring `operator[]` default-construction. -/
def alookupD {α : Type} (l : List (Nat × α)) (k : Nat) (d : α) : α :=
  (alookup l k).getD d

/-- Association-list store `m[k] = v`: overwrite the existing entry in place,
or append a fresh one. -/
def ainsert {α : Type} : List (Nat × α) → Nat → α → List (Nat × α)
  | [], k, v => [(k, v)]
  | (k', v') :: t, k, v =>
      if k' = k then (k, v) :: t else (k', v') :: ainsert t k v

/-- Association-list `erase(k)`: drop the (unique) entry for `k`. -/
def aerase {α : Type} : List (Nat × α) → Nat → List (Nat × α)
  | [], _ => []
  | (k', v') :: t, k => if k' = k then t else (k', v') :: aerase t k

/-- Sum of a per-value field over all entries of an association list. -/
def sumBy {α : Type} (l : List (Nat × α)) (f : α → Int) : Int :=
  (l.map (fun p => f p.2)).sum

/-- Modelled from the spec: the "creating" lifecycle bit of the
placement-group state bitmask (`PG_STATE_CREATING`, declared in
`osd/osd_types.h`, which is not part of the given core). -/
def PG_STATE_CREATING : Nat := 1

/-- Modelled from the spec: `pg_stat_t` (declared in `osd/osd_types.h`),
one placement group's latest reported metrics: lifecycle-state bitmask,
byte count, KB count, object count. -/
structure pg_stat_t where
  state : Nat
  num_bytes : Nat
  num_kb : Nat
  num_objects : Nat
deriving DecidableEq, Repr

/-- Modelled from the spec: `osd_stat_t` (declared in `osd/osd_types.h`),
one device's capacity and utilization: total KB, used KB, available KB,
object count. -/
structure osd_stat_t where
  kb : Nat
  kb_used : Nat
  kb_avail : Nat
  num_objects : Nat
deriving DecidableEq, Repr

/-- The aggregate ("soft state") counters of `PGMap`, lines 99–109 of the
source: the per-state histogram plus the nine scalar totals. -/
structure PGStats where
  num_pg_by_state : List (Nat × Int)
  num_pg : Int
  total_pg_num_bytes : Int
  total_pg_num_kb : Int
  total_pg_num_objects : Int
  num_osd : Int
  total_osd_kb : Int
  total_osd_kb_used : Int
  total_osd_kb_avail : Int
  total_osd_num_objects : Int
deriving DecidableEq, Repr

/-- All aggregate counters zero, histogram empty. -/
def PGStats.zero : PGStats := ⟨[], 0, 0, 0, 0, 0, 0, 0, 0, 0⟩

/-- `stat_pg_add`'s effect on the counters (lines 126–130). -/
def PGStats.add_pg (t : PGStats) (s : pg_stat_t) : PGStats :=
  { t with
    num_pg := t.num_pg + 1,
    num_pg_by_state :=
      ainsert t.num_pg_by_state s.state (alookupD t.num_pg_by_state s.state 0 + 1),
    total_pg_num_bytes := t.total_pg_num_bytes + (s.num_bytes : Int),
    total_pg_num_kb := t.total_pg_num_kb + (s.num_kb : Int),
    total_pg_num_objects := t.total_pg_num_objects + (s.num_objects : Int) }

/-- `stat_pg_sub`'s effect on the counters (lines 135–140): decrement the
histogram bucket and erase it when it reaches zero. -/
def PGStats.sub_pg (t : PGStats) (s : pg_stat_t) : PGStats :=
  { t with
    num_pg := t.num_pg - 1,
    num_pg_by_state :=
      if alookupD t.num_pg_by_state s.state 0 - 1 = 0 then
        aerase t.num_pg_by_state s.state
      else
        ainsert t.num_pg_by_state s.state (alookupD t.num_pg_by_state s.state 0 - 1),
    total_pg_num_bytes := t.total_pg_num_bytes - (s.num_bytes : Int),
    total_pg_num_kb := t.total_pg_num_kb - (s.num_kb : Int),
    total_pg_num_objects := t.total_pg_num_objects - (s.num_objects : Int) }

/-- `stat_osd_add` (lines 144–150). -/
def PGStats.add_osd (t : PGStats) (s : osd_stat_t) : PGStats :=
  { t with
    num_osd := t.num_osd + 1,
    total_osd_kb := t.total_osd_kb + (s.kb : Int),
    total_osd_kb_used := t.total_osd_kb_used + (s.kb_used : Int),
    total_osd_kb_avail := t.total_osd_kb_avail + (s.kb_avail : Int),
    total_osd_num_objects := t.total_osd_num_objects + (s.num_objects : Int) }

/-- `stat_osd_sub` (lines 151–157). -/
def PGStats.sub_osd (t : PGStats) (s : osd_stat_t) : PGStats :=
  { t with
    num_osd := t.num_osd - 1,
    total_osd_kb := t.total_osd_kb - (s.kb : Int),
    total_osd_kb_used := t.total_osd_kb_used - (s.kb_used : Int),
    total_osd_kb_avail := t.total_osd_kb_avail - (s.kb_avail : Int),
    total_osd_num_objects := t.total_osd_num_objects - (s.num_objects : Int) }

/-- The `PGMap` class: raw state (version, watermarks, entity maps, seen-set)
plus derived state (aggregate counters, creating set). -/
structure PGMap where
  version : Nat
  last_osdmap_epoch : Nat
  last_pg_scan : Nat
  pg_stat : List (Nat × pg_stat_t)
  pg_set : Finset Nat
  osd_stat : List (Nat × osd_stat_t)
  stats : PGStats
  creating_pgs : Finset Nat
deriving DecidableEq

/-- The `PGMap()` constructor (lines 163–173): everything zero / empty. -/
def PGMap.init : PGMap :=
  { version := 0, last_osdmap_epoch := 0, last_pg_scan := 0,
    pg_stat := [], pg_set := ∅, osd_stat := [],
    stats := PGStats.zero, creating_pgs := ∅ }

/-- `PGMap::Incremental` (lines 36–63). `osd_stat_rm` is a `std::set<int>`;
we keep it as the list of its elements in iteration order. -/
structure Incremental where
  version : Nat
  pg_stat_updates : List (Nat × pg_stat_t)
  osd_stat_updates : List (Nat × osd_stat_t)
  osd_stat_rm : List Nat
  osdmap_epoch : Nat
  pg_scan : Nat
deriving DecidableEq, Repr

/-- `stat_zero` (lines 113–124): zero every counter and clear the histogram.
Note the source does NOT touch `creating_pgs`. -/
def PGMap.stat_zero (m : PGMap) : PGMap :=
  { m with stats := PGStats.zero }

/-- `stat_pg_add(pgid, s)` (lines 125–133): counters plus the conditional
insertion of `pgid` into the creating set. -/
def PGMap.stat_pg_add (m : PGMap) (pgid : Nat) (s : pg_stat_t) : PGMap :=
  { m with
    stats := m.stats.add_pg s,
    creating_pgs :=
      if s.state &&& PG_STATE_CREATING ≠ 0 then insert pgid m.creating_pgs
      else m.creating_pgs }

/-- `stat_pg_sub(pgid, s)` (lines 134–143). -/
def PGMap.stat_pg_sub (m : PGMap) (pgid : Nat) (s : pg_stat_t) : PGMap :=
  { m with
    stats := m.stats.sub_pg s,
    creating_pgs :=
      if s.state &&& PG_STATE_CREATING ≠ 0 then m.creating_pgs.erase pgid
      else m.creating_pgs }

/-- `stat_osd_add(s)` (lines 144–150). -/
def PGMap.stat_osd_add (m : PGMap) (s : osd_stat_t) : PGMap :=
  { m with stats := m.stats.add_osd s }

/-- `stat_osd_sub(s)` (lines 151–157). -/
def PGMap.stat_osd_sub (m : PGMap) (s : osd_stat_t) : PGMap :=
  { m with stats := m.stats.sub_osd s }

/-- One iteration of the placement-group loop of `apply_incremental`
(lines 68–77): sub the old stat if present, record a first-seen id in
`pg_set`, store the new stat, add it to the aggregates. -/
def PGMap.applyPgUpdate (m : PGMap) (p : Nat × pg_stat_t) : PGMap :=
  let m1 :=
    match alookup m.pg_stat p.1 with
    | some old => m.stat_pg_sub p.1 old
    | none => m
  let m2 :=
    if alookup m1.pg_stat p.1 = none then { m1 with pg_set := insert p.1 m1.pg_set }
    else m1
  let m3 := { m2 with pg_stat := ainsert m2.pg_stat p.1 p.2 }
  m3.stat_pg_add p.1 p.2

/-- One iteration of the device-upsert loop (lines 78–85). -/
def PGMap.applyOsdUpdate (m : PGMap) (p : Nat × osd_stat_t) : PGMap :=
  let m1 :=
    match alookup m.osd_stat p.1 with
    | some old => m.stat_osd_sub old
    | none => m
  let m2 := { m1 with osd_stat := ainsert m1.osd_stat p.1 p.2 }
  m2.stat_osd_add p.2

/-- One iteration of the device-removal loop (lines 86–92): if present,
sub the stat and erase the entry; otherwise do nothing. -/
def PGMap.applyOsdRm (m : PGMap) (i : Nat) : PGMap :=
  match alookup m.osd_stat i with
  | some old =>
      let m1 := m.stat_osd_sub old
      { m1 with osd_stat := aerase m1.osd_stat i }
  | none => m

/-- `apply_incremental` (lines 65–97). The leading `assert(inc.version ==
version+1)` aborts before any mutation; this is modelled by returning
`none`. -/
def PGMap.apply_incremental (m : PGMap) (inc : Incremental) : Option PGMap :=
  if inc.version ≠ m.version + 1 then none
  else
    let m1 := { m with version := m.version + 1 }
    let m2 := inc.pg_stat_updates.foldl PGMap.applyPgUpdate m1
    let m3 := inc.osd_stat_updates.foldl PGMap.applyOsdUpdate m2
    let m4 := inc.osd_stat_rm.foldl PGMap.applyOsdRm m3
    let m5 :=
      if inc.osdmap_epoch ≠ 0 then { m4 with last_osdmap_epoch := inc.osdmap_epoch }
      else m4
    some (if inc.pg_scan ≠ 0 then { m5 with last_pg_scan := inc.pg_scan } else m5)

/-- Apply a sequence of deltas in order, propagating the fatal fault. -/
def PGMap.applySeq (m : PGMap) : List Incremental → Option PGMap
  | [] => some m
  | d :: ds =>
      match m.apply_incremental d with
      | none => none
      | some m' => m'.applySeq ds

/-!
### The snapshot codec

Modelled from the spec: the primitive `::encode` / `::decode` routines live
in the encoding library, not in the given core.  The byte stream is
abstracted to a token stream `List Nat`; a scalar is one token, a stat
record is its fields in order, a map is a length token followed by the
entries (`::decode` of a map rebuilds it entry by entry with `m[k] = v`).
A `::decode` call either consumes a structurally complete value or fails.
-/

/-- Token encoding of one placement-group stat record. -/
def encPgStat (s : pg_stat_t) : List Nat :=
  [s.state, s.num_bytes, s.num_kb, s.num_objects]

/-- Token decoding of one placement-group stat record. -/
def decPgStat : List Nat → Option (pg_stat_t × List Nat)
  | a :: b :: c :: d :: rest => some (⟨a, b, c, d⟩, rest)
  | _ => none

/-- Token encoding of one device stat record. -/
def encOsdStat (s : osd_stat_t) : List Nat :=
  [s.kb, s.kb_used, s.kb_avail, s.num_objects]

/-- Token decoding of one device stat record. -/
def decOsdStat : List Nat → Option (osd_stat_t × List Nat)
  | a :: b :: c :: d :: rest => some (⟨a, b, c, d⟩, rest)
  | _ => none

/-- Token encoding of a placement-group map: length, then each entry. -/
def encPgMap (l : List (Nat × pg_stat_t)) : List Nat :=
  l.length :: (l.map (fun p => p.1 :: encPgStat p.2)).flatten

/-- Read `n` placement-group entries, storing each with `m[k] = v`. -/
def decPgMapLoop : Nat → List (Nat × pg_stat_t) → List Nat →
    Option (List (Nat × pg_stat_t) × List Nat)
  | 0, acc, bl => some (acc, bl)
  | Nat.succ n, acc, bl =>
      match bl with
      | [] => none
      | k :: bl1 =>
          match decPgStat bl1 with
          | none => none
          | some (s, bl2) => decPgMapLoop n (ainsert acc k s) bl2

/-- Token decoding of a placement-group map. -/
def decPgMap : List Nat → Option (List (Nat × pg_stat_t) × List Nat)
  | [] => none
  | n :: bl1 => decPgMapLoop n [] bl1

/-- Token encoding of a device map: length, then each entry. -/
def encOsdMap (l : List (Nat × osd_stat_t)) : List Nat :=
  l.length :: (l.map (fun p => p.1 :: encOsdStat p.2)).flatten

/-- Read `n` device entries, storing each with `m[k] = v`. -/
def decOsdMapLoop : Nat → List (Nat × osd_stat_t) → List Nat →
    Option (List (Nat × osd_stat_t) × List Nat)
  | 0, acc, bl => some (acc, bl)
  | Nat.succ n, acc, bl =>
      match bl with
      | [] => none
      | k :: bl1 =>
          match decOsdStat bl1 with
          | none => none
          | some (s, bl2) => decOsdMapLoop n (ainsert acc k s) bl2

/-- Token decoding of a device map. -/
def decOsdMap : List Nat → Option (List (Nat × osd_stat_t) × List Nat)
  | [] => none
  | n :: bl1 => decOsdMapLoop n [] bl1

/-- `PGMap::encode` (lines 175–181): version, the two raw maps, the two
watermarks, in that order. -/
def PGMap.encode (m : PGMap) : List Nat :=
  m.version :: (encPgMap m.pg_stat ++ encOsdMap m.osd_stat ++
    [m.last_osdmap_epoch, m.last_pg_scan])

/-- The rebuild step of `PGMap::decode` for one placement-group entry
(lines 189–194): `stat_pg_add` then `pg_set.insert`. -/
def PGMap.decodeRebuildPg (m : PGMap) (p : Nat × pg_stat_t) : PGMap :=
  let m1 := m.stat_pg_add p.1 p.2
  { m1 with pg_set := insert p.1 m1.pg_set }

/-- `PGMap::decode` (lines 182–199).  The C++ routine decodes field by
field into `this`; a failing `::decode` throws, leaving the fields decoded
so far already overwritten.  This is modelled by returning the state as
mutated up to the failure point together with `none`; on success the
remaining stream is returned.  After the raw fields are read, the
aggregates are zeroed and rebuilt by replaying every entity through the
same add path `apply_incremental` uses. -/
def PGMap.decodeSt (m : PGMap) (bl : List Nat) : PGMap × Option (List Nat) :=
  match bl with
  | [] => (m, none)
  | v :: bl1 =>
      let mV := { m with version := v }
      match decPgMap bl1 with
      | none => (mV, none)
      | some (pgs, bl2) =>
          let mP := { mV with pg_stat := pgs }
          match decOsdMap bl2 with
          | none => (mP, none)
          | some (osds, bl3) =>
              let mO := { mP with osd_stat := osds }
              match bl3 with
              | [] => (mO, none)
              | e1 :: bl4 =>
                  let mE1 := { mO with last_osdmap_epoch := e1 }
                  match bl4 with
                  | [] => (mE1, none)
                  | e2 :: bl5 =>
                      let mE2 := { mE1 with last_pg_scan := e2 }
                      let mZ := mE2.stat_zero
                      let mPg := mZ.pg_stat.foldl PGMap.decodeRebuildPg mZ
                      let mOsd := mPg.osd_stat.foldl
                        (fun a p => a.stat_osd_add p.2) mPg
                      (mOsd, some bl5)

/-!
### Recomputation of derived state from the raw entity maps

These fold the same add path `stat_pg_add` / `stat_osd_add` use, starting
from zeroed counters and empty sets; they state what "aggregates derived
from the raw maps" means for the round-trip and consistency claims.
-/

/-- The aggregate counters recomputed from the raw entity maps. -/
def recomputeStats (pgs : List (Nat × pg_stat_t))
    (osds : List (Nat × osd_stat_t)) : PGStats :=
  osds.foldl (fun t p => t.add_osd p.2)
    (pgs.foldl (fun t p => t.add_pg p.2) PGStats.zero)

/-- The creating set recomputed from the raw placement-group map. -/
def recomputeCreating (pgs : List (Nat × pg_stat_t)) : Finset Nat :=
  pgs.foldl
    (fun c p => if p.2.state &&& PG_STATE_CREATING ≠ 0 then insert p.1 c else c) ∅

/-- The seen-set recomputed from the raw placement-group map. -/
def recomputeSeen (pgs : List (Nat × pg_stat_t)) : Finset Nat :=
  pgs.foldl (fun c p => insert p.1 c) ∅

/-!
### Invariants
-/

/-- Every aggregate counter equals the sum of the corresponding field over
the entities currently present in the store. -/
def PGMap.AggConsistent (m : PGMap) : Prop :=
  m.stats.num_pg = (m.pg_stat.length : Int) ∧
  (∀ st : Nat, alookupD m.stats.num_pg_by_state st 0 =
    sumBy m.pg_stat (fun s => if s.state = st then 1 else 0)) ∧
  m.stats.total_pg_num_bytes = sumBy m.pg_stat (fun s => (s.num_bytes : Int)) ∧
  m.stats.total_pg_num_kb = sumBy m.pg_stat (fun s => (s.num_kb : Int)) ∧
  m.stats.total_pg_num_objects = sumBy m.pg_stat (fun s => (s.num_objects : Int)) ∧
  m.stats.num_osd = (m.osd_stat.length : Int) ∧
  m.stats.total_osd_kb = sumBy m.osd_stat (fun s => (s.kb : Int)) ∧
  m.stats.total_osd_kb_used = sumBy m.osd_stat (fun s => (s.kb_used : Int)) ∧
  m.stats.total_osd_kb_avail = sumBy m.osd_stat (fun s => (s.kb_avail : Int)) ∧
  m.stats.total_osd_num_objects = sumBy m.osd_stat (fun s => (s.num_objects : Int))

/-- A placement-group id is in the creating set iff its current stat
record has the creating bit set. -/
def PGMap.CreatingConsistent (m : PGMap) : Prop :=
  ∀ i : Nat, i ∈ m.creating_pgs ↔
    ∃ s, alookup m.pg_stat i = some s ∧ s.state &&& PG_STATE_CREATING ≠ 0

/-- The seen-set contains every key of the placement-group map. -/
def PGMap.SeenSuperset (m : PGMap) : Prop :=
  ∀ i : Nat, (alookup m.pg_stat i).isSome → i ∈ m.pg_set

/-- All reachable-state invariants together: unique keys in the three
association lists, aggregate consistency, creating-set correctness,
seen-set coverage. -/
def PGMap.Good (m : PGMap) : Prop :=
  (m.pg_stat.map Prod.fst).Nodup ∧
  (m.osd_stat.map Prod.fst).Nodup ∧
  (m.stats.num_pg_by_state.map Prod.fst).Nodup ∧
  m.AggConsistent ∧ m.CreatingConsistent ∧ m.SeenSuperset

/-!
### Association-list lemmas
-/


theorem alookup_ainsert_self {α : Type} (l : List (Nat × α)) (k : Nat) (v : α) :
    alookup (ainsert l k v) k = some v := by
  induction l with
  | nil => simp [ainsert, alookup]
  | cons hd t ih =>
      by_cases h : hd.1 = k
      · simp [ainsert, h, alookup]
      · simp [ainsert, h, alookup, ih]

theorem alookup_ainsert_ne {α : Type} (l : List (Nat × α)) (k k' : Nat) (v : α)
    (h : k' ≠ k) : alookup (ainsert l k v) k' = alookup l k' := by
  have hkk : ¬ k = k' := fun h' => h h'.symm
  induction l with
  | nil => simp [ainsert, alookup, hkk]
  | cons hd t ih =>
      by_cases hk : hd.1 = k
      · subst hk
        simp [ainsert, alookup, hkk]
      · simp [ainsert, alookup, hk, ih]

theorem alookup_aerase_ne {α : Type} (l : List (Nat × α)) (k k' : Nat)
    (h : k' ≠ k) : alookup (aerase l k) k' = alookup l k' := by
  have hkk : ¬ k = k' := fun h' => h h'.symm
  induction l with
  | nil => simp [aerase]
  | cons hd t ih =>
      by_cases hk : hd.1 = k
      · subst hk
        simp [aerase, alookup, hkk]
      · simp [aerase, alookup, hk, ih]

theorem alookup_eq_none_of_not_mem {α : Type} (l : List (Nat × α)) (k : Nat)
    (h : k ∉ l.map Prod.fst) : alookup l k = none := by
  induction l with
  | nil => simp [alookup]
  | cons hd t ih =>
      simp only [List.map_cons, List.mem_cons, not_or] at h
      have hne : ¬ hd.1 = k := fun hc => h.1 hc.symm
      simp [alookup, hne, ih h.2]

theorem mem_keys_of_alookup_isSome {α : Type} (l : List (Nat × α)) (k : Nat)
    (h : (alookup l k).isSome) : k ∈ l.map Prod.fst := by
  induction l with
  | nil => simp [alookup] at h
  | cons hd t ih =>
      by_cases hk : hd.1 = k
      · simp [List.map_cons, hk]
      · simp only [alookup, if_neg hk] at h
        exact List.mem_cons_of_mem _ (ih h)

theorem not_mem_keys_aerase_self {α : Type} (l : List (Nat × α)) (k : Nat)
    (hnd : (l.map Prod.fst).Nodup) : k ∉ (aerase l k).map Prod.fst := by
  induction l with
  | nil => simp [aerase]
  | cons hd t ih =>
      simp only [List.map_cons, List.nodup_cons] at hnd
      by_cases hk : hd.1 = k
      · simp only [aerase, if_pos hk]
        exact fun hc => hnd.1 (hk ▸ hc)
      · simp only [aerase, if_neg hk, List.map_cons, List.mem_cons, not_or]
        exact ⟨fun hc => hk hc.symm, ih hnd.2⟩

theorem alookup_aerase_self {α : Type} (l : List (Nat × α)) (k : Nat)
    (hnd : (l.map Prod.fst).Nodup) : alookup (aerase l k) k = none :=
  alookup_eq_none_of_not_mem _ _ (not_mem_keys_aerase_self l k hnd)

theorem keys_ainsert_sub {α : Type} (l : List (Nat × α)) (k : Nat) (v : α) :
    ∀ x, x ∈ (ainsert l k v).map Prod.fst → x = k ∨ x ∈ l.map Prod.fst := by
  induction l with
  | nil => simp [ainsert]
  | cons hd t ih =>
      intro x hx
      by_cases hk : hd.1 = k
      · simp only [ainsert, if_pos hk, List.map_cons, List.mem_cons] at hx
        rcases hx with h | h
        · exact Or.inl h
        · exact Or.inr (List.mem_cons_of_mem _ h)
      · simp only [ainsert, if_neg hk, List.map_cons, List.mem_cons] at hx
        rcases hx with h | h
        · exact Or.inr (List.mem_cons.mpr (Or.inl h))
        · rcases ih x h with h' | h'
          · exact Or.inl h'
          · exact Or.inr (List.mem_cons_of_mem _ h')

theorem nodup_keys_ainsert {α : Type} (l : List (Nat × α)) (k : Nat) (v : α)
    (hnd : (l.map Prod.fst).Nodup) : ((ainsert l k v).map Prod.fst).Nodup := by
  induction l with
  | nil => simp [ainsert]
  | cons hd t ih =>
      simp only [List.map_cons, List.nodup_cons] at hnd
      by_cases hk : hd.1 = k
      · simp only [ainsert, if_pos hk, List.map_cons, List.nodup_cons]
        exact ⟨fun hc => hnd.1 (hk.symm ▸ hc), hnd.2⟩
      · simp only [ainsert, if_neg hk, List.map_cons, List.nodup_cons]
        refine ⟨fun hc => ?_, ih hnd.2⟩
        rcases keys_ainsert_sub t k v hd.1 hc with h | h
        · exact hk h
        · exact hnd.1 h

theorem keys_aerase_sub {α : Type} (l : List (Nat × α)) (k : Nat) :
    ∀ x, x ∈ (aerase l k).map Prod.fst → x ∈ l.map Prod.fst := by
  induction l with
  | nil => simp [aerase]
  | cons hd t ih =>
      intro x hx
      by_cases hk : hd.1 = k
      · simp only [aerase, if_pos hk] at hx
        exact List.mem_cons_of_mem _ hx
      · simp only [aerase, if_neg hk, List.map_cons, List.mem_cons] at hx
        rcases hx with h | h
        · exact List.mem_cons.mpr (Or.inl h)
        · exact List.mem_cons_of_mem _ (ih x h)

theorem nodup_keys_aerase {α : Type} (l : List (Nat × α)) (k : Nat)
    (hnd : (l.map Prod.fst).Nodup) : ((aerase l k).map Prod.fst).Nodup := by
  induction l with
  | nil => simp [aerase]
  | cons hd t ih =>
      simp only [List.map_cons, List.nodup_cons] at hnd
      by_cases hk : hd.1 = k
      · simp only [aerase, if_pos hk]
        exact hnd.2
      · simp only [aerase, if_neg hk, List.map_cons, List.nodup_cons]
        exact ⟨fun hc => hnd.1 (keys_aerase_sub t k hd.1 hc), ih hnd.2⟩

theorem length_ainsert_absent {α : Type} (l : List (Nat × α)) (k : Nat) (v : α)
    (h : alookup l k = none) : (ainsert l k v).length = l.length + 1 := by
  induction l with
  | nil => simp [ainsert]
  | cons hd t ih =>
      by_cases hk : hd.1 = k
      · simp [alookup, hk] at h
      · simp only [alookup, if_neg hk] at h
        simp [ainsert, hk, ih h]

theorem length_ainsert_present {α : Type} (l : List (Nat × α)) (k : Nat) (v o : α)
    (h : alookup l k = some o) : (ainsert l k v).length = l.length := by
  induction l with
  | nil => simp [alookup] at h
  | cons hd t ih =>
      by_cases hk : hd.1 = k
      · simp [ainsert, hk]
      · simp only [alookup, if_neg hk] at h
        simp [ainsert, hk, ih h]

theorem length_aerase_present {α : Type} (l : List (Nat × α)) (k : Nat) (o : α)
    (h : alookup l k = some o) : l.length = (aerase l k).length + 1 := by
  induction l with
  | nil => simp [alookup] at h
  | cons hd t ih =>
      by_cases hk : hd.1 = k
      · simp [aerase, hk]
      · simp only [alookup, if_neg hk] at h
        simp [aerase, hk, ih h]

theorem sumBy_ainsert_absent {α : Type} (l : List (Nat × α)) (k : Nat) (v : α)
    (f : α → Int) (h : alookup l k = none) :
    sumBy (ainsert l k v) f = sumBy l f + f v := by
  induction l with
  | nil => simp [ainsert, sumBy]
  | cons hd t ih =>
      by_cases hk : hd.1 = k
      · simp [alookup, hk] at h
      · simp only [alookup, if_neg hk] at h
        simp only [ainsert, if_neg hk, sumBy, List.map_cons, List.sum_cons]
        have := ih h
        simp only [sumBy] at this
        rw [this]
        ring

theorem sumBy_ainsert_present {α : Type} (l : List (Nat × α)) (k : Nat) (v o : α)
    (f : α → Int) (h : alookup l k = some o) :
    sumBy (ainsert l k v) f = sumBy l f - f o + f v := by
  induction l with
  | nil => simp [alookup] at h
  | cons hd t ih =>
      by_cases hk : hd.1 = k
      · simp only [alookup, if_pos hk] at h
        cases h
        simp only [ainsert, if_pos hk, sumBy, List.map_cons, List.sum_cons]
        ring
      · simp only [alookup, if_neg hk] at h
        simp only [ainsert, if_neg hk, sumBy, List.map_cons, List.sum_cons]
        have := ih h
        simp only [sumBy] at this
        rw [this]
        ring

theorem sumBy_aerase_present {α : Type} (l : List (Nat × α)) (k : Nat) (o : α)
    (f : α → Int) (h : alookup l k = some o) :
    sumBy (aerase l k) f = sumBy l f - f o := by
  induction l with
  | nil => simp [alookup] at h
  | cons hd t ih =>
      by_cases hk : hd.1 = k
      · simp only [alookup, if_pos hk] at h
        cases h
        simp only [aerase, if_pos hk, sumBy, List.map_cons, List.sum_cons]
        ring
      · simp only [alookup, if_neg hk] at h
        simp only [aerase, if_neg hk, sumBy, List.map_cons, List.sum_cons]
        have := ih h
        simp only [sumBy] at this
        rw [this]
        ring

theorem alookupD_bump (h : List (Nat × Int)) (st0 st : Nat) :
    alookupD (ainsert h st0 (alookupD h st0 0 + 1)) st 0 =
      alookupD h st 0 + (if st0 = st then 1 else 0) := by
  by_cases hs : st0 = st
  · subst hs
    simp [alookupD, alookup_ainsert_self]
  · have hs' : st ≠ st0 := fun hc => hs hc.symm
    simp [alookupD, alookup_ainsert_ne _ _ _ _ hs', if_neg hs]

theorem alookupD_dec (h : List (Nat × Int)) (st0 st : Nat)
    (hnd : (h.map Prod.fst).Nodup) :
    alookupD (if alookupD h st0 0 - 1 = 0 then aerase h st0
              else ainsert h st0 (alookupD h st0 0 - 1)) st 0 =
      alookupD h st 0 - (if st0 = st then 1 else 0) := by
  by_cases hz : alookupD h st0 0 - 1 = 0
  · rw [if_pos hz]
    by_cases hs : st0 = st
    · subst hs
      simp only [alookupD] at hz ⊢
      rw [alookup_aerase_self _ _ hnd]
      simp only [Option.getD_none, if_true]
      linarith
    · have hs' : st ≠ st0 := fun hc => hs hc.symm
      simp [alookupD, alookup_aerase_ne _ _ _ hs', if_neg hs]
  · rw [if_neg hz]
    by_cases hs : st0 = st
    · subst hs
      simp [alookupD, alookup_ainsert_self]
    · have hs' : st ≠ st0 := fun hc => hs hc.symm
      simp [alookupD, alookup_ainsert_ne _ _ _ _ hs', if_neg hs]

/-!
### Field-preservation facts for the primitive operations
-/

theorem add_pg_num_osd (t : PGStats) (s : pg_stat_t) :
    (t.add_pg s).num_osd = t.num_osd := rfl

theorem add_pg_osd_kb (t : PGStats) (s : pg_stat_t) :
    (t.add_pg s).total_osd_kb = t.total_osd_kb := rfl

theorem add_pg_osd_kb_used (t : PGStats) (s : pg_stat_t) :
    (t.add_pg s).total_osd_kb_used = t.total_osd_kb_used := rfl

theorem add_pg_osd_kb_avail (t : PGStats) (s : pg_stat_t) :
    (t.add_pg s).total_osd_kb_avail = t.total_osd_kb_avail := rfl

theorem add_pg_osd_objects (t : PGStats) (s : pg_stat_t) :
    (t.add_pg s).total_osd_num_objects = t.total_osd_num_objects := rfl

theorem sub_pg_num_osd (t : PGStats) (s : pg_stat_t) :
    (t.sub_pg s).num_osd = t.num_osd := rfl

theorem sub_pg_osd_kb (t : PGStats) (s : pg_stat_t) :
    (t.sub_pg s).total_osd_kb = t.total_osd_kb := rfl

theorem sub_pg_osd_kb_used (t : PGStats) (s : pg_stat_t) :
    (t.sub_pg s).total_osd_kb_used = t.total_osd_kb_used := rfl

theorem sub_pg_osd_kb_avail (t : PGStats) (s : pg_stat_t) :
    (t.sub_pg s).total_osd_kb_avail = t.total_osd_kb_avail := rfl

theorem sub_pg_osd_objects (t : PGStats) (s : pg_stat_t) :
    (t.sub_pg s).total_osd_num_objects = t.total_osd_num_objects := rfl

theorem add_osd_num_pg (t : PGStats) (s : osd_stat_t) :
    (t.add_osd s).num_pg = t.num_pg := rfl

theorem add_osd_hist (t : PGStats) (s : osd_stat_t) :
    (t.add_osd s).num_pg_by_state = t.num_pg_by_state := rfl

theorem add_osd_pg_bytes (t : PGStats) (s : osd_stat_t) :
    (t.add_osd s).total_pg_num_bytes = t.total_pg_num_bytes := rfl

theorem add_osd_pg_kb (t : PGStats) (s : osd_stat_t) :
    (t.add_osd s).total_pg_num_kb = t.total_pg_num_kb := rfl

theorem add_osd_pg_objects (t : PGStats) (s : osd_stat_t) :
    (t.add_osd s).total_pg_num_objects = t.total_pg_num_objects := rfl

theorem sub_osd_num_pg (t : PGStats) (s : osd_stat_t) :
    (t.sub_osd s).num_pg = t.num_pg := rfl

theorem sub_osd_hist (t : PGStats) (s : osd_stat_t) :
    (t.sub_osd s).num_pg_by_state = t.num_pg_by_state := rfl

theorem sub_osd_pg_bytes (t : PGStats) (s : osd_stat_t) :
    (t.sub_osd s).total_pg_num_bytes = t.total_pg_num_bytes := rfl

theorem sub_osd_pg_kb (t : PGStats) (s : osd_stat_t) :
    (t.sub_osd s).total_pg_num_kb = t.total_pg_num_kb := rfl

theorem sub_osd_pg_objects (t : PGStats) (s : osd_stat_t) :
    (t.sub_osd s).total_pg_num_objects = t.total_pg_num_objects := rfl

theorem applyPgUpdate_pg_stat (m : PGMap) (p : Nat × pg_stat_t) :
    (m.applyPgUpdate p).pg_stat = ainsert m.pg_stat p.1 p.2 := by
  unfold PGMap.applyPgUpdate
  cases halook : alookup m.pg_stat p.1 <;>
    simp [halook, PGMap.stat_pg_sub, PGMap.stat_pg_add]

theorem applyPgUpdate_osd_stat (m : PGMap) (p : Nat × pg_stat_t) :
    (m.applyPgUpdate p).osd_stat = m.osd_stat := by
  unfold PGMap.applyPgUpdate
  cases halook : alookup m.pg_stat p.1 <;>
    simp [halook, PGMap.stat_pg_sub, PGMap.stat_pg_add]

theorem applyPgUpdate_version (m : PGMap) (p : Nat × pg_stat_t) :
    (m.applyPgUpdate p).version = m.version := by
  unfold PGMap.applyPgUpdate
  cases halook : alookup m.pg_stat p.1 <;>
    simp [halook, PGMap.stat_pg_sub, PGMap.stat_pg_add]

theorem applyPgUpdate_last_osdmap_epoch (m : PGMap) (p : Nat × pg_stat_t) :
    (m.applyPgUpdate p).last_osdmap_epoch = m.last_osdmap_epoch := by
  unfold PGMap.applyPgUpdate
  cases halook : alookup m.pg_stat p.1 <;>
    simp [halook, PGMap.stat_pg_sub, PGMap.stat_pg_add]

theorem applyPgUpdate_last_pg_scan (m : PGMap) (p : Nat × pg_stat_t) :
    (m.applyPgUpdate p).last_pg_scan = m.last_pg_scan := by
  unfold PGMap.applyPgUpdate
  cases halook : alookup m.pg_stat p.1 <;>
    simp [halook, PGMap.stat_pg_sub, PGMap.stat_pg_add]

theorem applyPgUpdate_osd_counters (m : PGMap) (p : Nat × pg_stat_t) :
    (m.applyPgUpdate p).stats.num_osd = m.stats.num_osd ∧
    (m.applyPgUpdate p).stats.total_osd_kb = m.stats.total_osd_kb ∧
    (m.applyPgUpdate p).stats.total_osd_kb_used = m.stats.total_osd_kb_used ∧
    (m.applyPgUpdate p).stats.total_osd_kb_avail = m.stats.total_osd_kb_avail ∧
    (m.applyPgUpdate p).stats.total_osd_num_objects = m.stats.total_osd_num_objects := by
  unfold PGMap.applyPgUpdate
  cases halook : alookup m.pg_stat p.1 <;>
    simp [halook, PGMap.stat_pg_sub, PGMap.stat_pg_add,
      PGStats.add_pg, PGStats.sub_pg]

theorem applyPgUpdate_pg_set (m : PGMap) (p : Nat × pg_stat_t) :
    (m.applyPgUpdate p).pg_set =
      if alookup m.pg_stat p.1 = none then insert p.1 m.pg_set else m.pg_set := by
  unfold PGMap.applyPgUpdate
  cases halook : alookup m.pg_stat p.1 <;>
    simp [halook, PGMap.stat_pg_sub, PGMap.stat_pg_add]

theorem applyOsdUpdate_osd_stat (m : PGMap) (p : Nat × osd_stat_t) :
    (m.applyOsdUpdate p).osd_stat = ainsert m.osd_stat p.1 p.2 := by
  unfold PGMap.applyOsdUpdate
  cases halook : alookup m.osd_stat p.1 <;>
    simp [halook, PGMap.stat_osd_sub, PGMap.stat_osd_add]

theorem applyOsdUpdate_pg_side (m : PGMap) (p : Nat × osd_stat_t) :
    (m.applyOsdUpdate p).pg_stat = m.pg_stat ∧
    (m.applyOsdUpdate p).pg_set = m.pg_set ∧
    (m.applyOsdUpdate p).creating_pgs = m.creating_pgs ∧
    (m.applyOsdUpdate p).version = m.version ∧
    (m.applyOsdUpdate p).last_osdmap_epoch = m.last_osdmap_epoch ∧
    (m.applyOsdUpdate p).last_pg_scan = m.last_pg_scan := by
  unfold PGMap.applyOsdUpdate
  cases halook : alookup m.osd_stat p.1 <;>
    simp [halook, PGMap.stat_osd_sub, PGMap.stat_osd_add]

theorem applyOsdUpdate_pg_counters (m : PGMap) (p : Nat × osd_stat_t) :
    (m.applyOsdUpdate p).stats.num_pg = m.stats.num_pg ∧
    (m.applyOsdUpdate p).stats.num_pg_by_state = m.stats.num_pg_by_state ∧
    (m.applyOsdUpdate p).stats.total_pg_num_bytes = m.stats.total_pg_num_bytes ∧
    (m.applyOsdUpdate p).stats.total_pg_num_kb = m.stats.total_pg_num_kb ∧
    (m.applyOsdUpdate p).stats.total_pg_num_objects = m.stats.total_pg_num_objects := by
  unfold PGMap.applyOsdUpdate
  cases halook : alookup m.osd_stat p.1 <;>
    simp [halook, PGMap.stat_osd_sub, PGMap.stat_osd_add,
      PGStats.add_osd, PGStats.sub_osd]

theorem applyOsdRm_pg_side (m : PGMap) (i : Nat) :
    (m.applyOsdRm i).pg_stat = m.pg_stat ∧
    (m.applyOsdRm i).pg_set = m.pg_set ∧
    (m.applyOsdRm i).creating_pgs = m.creating_pgs ∧
    (m.applyOsdRm i).version = m.version ∧
    (m.applyOsdRm i).last_osdmap_epoch = m.last_osdmap_epoch ∧
    (m.applyOsdRm i).last_pg_scan = m.last_pg_scan := by
  unfold PGMap.applyOsdRm
  cases halook : alookup m.osd_stat i <;>
    simp [halook, PGMap.stat_osd_sub]

theorem applyOsdRm_pg_counters (m : PGMap) (i : Nat) :
    (m.applyOsdRm i).stats.num_pg = m.stats.num_pg ∧
    (m.applyOsdRm i).stats.num_pg_by_state = m.stats.num_pg_by_state ∧
    (m.applyOsdRm i).stats.total_pg_num_bytes = m.stats.total_pg_num_bytes ∧
    (m.applyOsdRm i).stats.total_pg_num_kb = m.stats.total_pg_num_kb ∧
    (m.applyOsdRm i).stats.total_pg_num_objects = m.stats.total_pg_num_objects := by
  unfold PGMap.applyOsdRm
  cases halook : alookup m.osd_stat i <;>
    simp [halook, PGMap.stat_osd_sub, PGStats.sub_osd]

theorem add_pg_num_pg (t : PGStats) (s : pg_stat_t) :
    (t.add_pg s).num_pg = t.num_pg + 1 := rfl

theorem add_pg_pg_bytes (t : PGStats) (s : pg_stat_t) :
    (t.add_pg s).total_pg_num_bytes = t.total_pg_num_bytes + (s.num_bytes : Int) := rfl

theorem add_pg_pg_kb (t : PGStats) (s : pg_stat_t) :
    (t.add_pg s).total_pg_num_kb = t.total_pg_num_kb + (s.num_kb : Int) := rfl

theorem add_pg_pg_objects (t : PGStats) (s : pg_stat_t) :
    (t.add_pg s).total_pg_num_objects = t.total_pg_num_objects + (s.num_objects : Int) := rfl

theorem sub_pg_num_pg (t : PGStats) (s : pg_stat_t) :
    (t.sub_pg s).num_pg = t.num_pg - 1 := rfl

theorem sub_pg_pg_bytes (t : PGStats) (s : pg_stat_t) :
    (t.sub_pg s).total_pg_num_bytes = t.total_pg_num_bytes - (s.num_bytes : Int) := rfl

theorem sub_pg_pg_kb (t : PGStats) (s : pg_stat_t) :
    (t.sub_pg s).total_pg_num_kb = t.total_pg_num_kb - (s.num_kb : Int) := rfl

theorem sub_pg_pg_objects (t : PGStats) (s : pg_stat_t) :
    (t.sub_pg s).total_pg_num_objects = t.total_pg_num_objects - (s.num_objects : Int) := rfl

theorem add_osd_num_osd (t : PGStats) (s : osd_stat_t) :
    (t.add_osd s).num_osd = t.num_osd + 1 := rfl

theorem add_osd_osd_kb (t : PGStats) (s : osd_stat_t) :
    (t.add_osd s).total_osd_kb = t.total_osd_kb + (s.kb : Int) := rfl

theorem add_osd_osd_kb_used (t : PGStats) (s : osd_stat_t) :
    (t.add_osd s).total_osd_kb_used = t.total_osd_kb_used + (s.kb_used : Int) := rfl

theorem add_osd_osd_kb_avail (t : PGStats) (s : osd_stat_t) :
    (t.add_osd s).total_osd_kb_avail = t.total_osd_kb_avail + (s.kb_avail : Int) := rfl

theorem add_osd_osd_objects (t : PGStats) (s : osd_stat_t) :
    (t.add_osd s).total_osd_num_objects = t.total_osd_num_objects + (s.num_objects : Int) := rfl

theorem sub_osd_num_osd (t : PGStats) (s : osd_stat_t) :
    (t.sub_osd s).num_osd = t.num_osd - 1 := rfl

theorem sub_osd_osd_kb (t : PGStats) (s : osd_stat_t) :
    (t.sub_osd s).total_osd_kb = t.total_osd_kb - (s.kb : Int) := rfl

theorem sub_osd_osd_kb_used (t : PGStats) (s : osd_stat_t) :
    (t.sub_osd s).total_osd_kb_used = t.total_osd_kb_used - (s.kb_used : Int) := rfl

theorem sub_osd_osd_kb_avail (t : PGStats) (s : osd_stat_t) :
    (t.sub_osd s).total_osd_kb_avail = t.total_osd_kb_avail - (s.kb_avail : Int) := rfl

theorem sub_osd_osd_objects (t : PGStats) (s : osd_stat_t) :
    (t.sub_osd s).total_osd_num_objects = t.total_osd_num_objects - (s.num_objects : Int) := rfl

theorem nodup_keys_add_pg (t : PGStats) (s : pg_stat_t)
    (hh : (t.num_pg_by_state.map Prod.fst).Nodup) :
    ((t.add_pg s).num_pg_by_state.map Prod.fst).Nodup := by
  simp only [PGStats.add_pg]
  exact nodup_keys_ainsert _ _ _ hh

theorem nodup_keys_sub_pg (t : PGStats) (s : pg_stat_t)
    (hh : (t.num_pg_by_state.map Prod.fst).Nodup) :
    ((t.sub_pg s).num_pg_by_state.map Prod.fst).Nodup := by
  simp only [PGStats.sub_pg]
  split
  · exact nodup_keys_aerase _ _ hh
  · exact nodup_keys_ainsert _ _ _ hh

theorem alookupD_add_pg (t : PGStats) (s : pg_stat_t) (st : Nat) :
    alookupD (t.add_pg s).num_pg_by_state st 0 =
      alookupD t.num_pg_by_state st 0 + (if s.state = st then 1 else 0) := by
  simp only [PGStats.add_pg]
  exact alookupD_bump _ _ _

theorem alookupD_sub_pg (t : PGStats) (s : pg_stat_t) (st : Nat)
    (hh : (t.num_pg_by_state.map Prod.fst).Nodup) :
    alookupD (t.sub_pg s).num_pg_by_state st 0 =
      alookupD t.num_pg_by_state st 0 - (if s.state = st then 1 else 0) := by
  simp only [PGStats.sub_pg]
  exact alookupD_dec _ _ _ hh

theorem applyPgUpdate_stats_absent (m : PGMap) (p : Nat × pg_stat_t)
    (h : alookup m.pg_stat p.1 = none) :
    (m.applyPgUpdate p).stats = m.stats.add_pg p.2 := by
  unfold PGMap.applyPgUpdate
  simp [h, PGMap.stat_pg_add]

theorem applyPgUpdate_stats_present (m : PGMap) (p : Nat × pg_stat_t)
    (o : pg_stat_t) (h : alookup m.pg_stat p.1 = some o) :
    (m.applyPgUpdate p).stats = (m.stats.sub_pg o).add_pg p.2 := by
  unfold PGMap.applyPgUpdate
  simp [h, PGMap.stat_pg_sub, PGMap.stat_pg_add]

theorem agg_applyPgUpdate (m : PGMap) (p : Nat × pg_stat_t)
    (hpg : (m.pg_stat.map Prod.fst).Nodup)
    (hh : (m.stats.num_pg_by_state.map Prod.fst).Nodup)
    (hc : m.AggConsistent) :
    ((m.applyPgUpdate p).pg_stat.map Prod.fst).Nodup ∧
    ((m.applyPgUpdate p).stats.num_pg_by_state.map Prod.fst).Nodup ∧
    (m.applyPgUpdate p).AggConsistent := by
  obtain ⟨h1, h2, h3, h4, h5, h6, h7, h8, h9, h10⟩ := hc
  have hps := applyPgUpdate_pg_stat m p
  have hos := applyPgUpdate_osd_stat m p
  have hoc := applyPgUpdate_osd_counters m p
  refine ⟨by rw [hps]; exact nodup_keys_ainsert _ _ _ hpg, ?_, ?_⟩
  · cases halook : alookup m.pg_stat p.1 with
    | none =>
        rw [applyPgUpdate_stats_absent m p halook]
        exact nodup_keys_add_pg _ _ hh
    | some o =>
        rw [applyPgUpdate_stats_present m p o halook]
        exact nodup_keys_add_pg _ _ (nodup_keys_sub_pg _ _ hh)
  · cases halook : alookup m.pg_stat p.1 with
    | none =>
        have hst := applyPgUpdate_stats_absent m p halook
        refine ⟨?_, ?_, ?_, ?_, ?_, ?_, ?_, ?_, ?_, ?_⟩
        · rw [hst, add_pg_num_pg, hps, h1, length_ainsert_absent _ _ _ halook]
          push_cast
          ring
        · intro st
          rw [hst, alookupD_add_pg, hps,
            sumBy_ainsert_absent _ _ _ _ halook, h2 st]
        · rw [hst, add_pg_pg_bytes, hps, sumBy_ainsert_absent _ _ _ _ halook, h3]
        · rw [hst, add_pg_pg_kb, hps, sumBy_ainsert_absent _ _ _ _ halook, h4]
        · rw [hst, add_pg_pg_objects, hps, sumBy_ainsert_absent _ _ _ _ halook, h5]
        · rw [hoc.1, hos, h6]
        · rw [hoc.2.1, hos, h7]
        · rw [hoc.2.2.1, hos, h8]
        · rw [hoc.2.2.2.1, hos, h9]
        · rw [hoc.2.2.2.2, hos, h10]
    | some o =>
        have hst := applyPgUpdate_stats_present m p o halook
        refine ⟨?_, ?_, ?_, ?_, ?_, ?_, ?_, ?_, ?_, ?_⟩
        · rw [hst, add_pg_num_pg, sub_pg_num_pg, hps, h1,
            length_ainsert_present _ _ _ o halook]
          ring
        · intro st
          rw [hst, alookupD_add_pg, alookupD_sub_pg _ _ _ hh, hps,
            sumBy_ainsert_present _ _ _ o _ halook, h2 st]
        · rw [hst, add_pg_pg_bytes, sub_pg_pg_bytes, hps,
            sumBy_ainsert_present _ _ _ o _ halook, h3]
        · rw [hst, add_pg_pg_kb, sub_pg_pg_kb, hps,
            sumBy_ainsert_present _ _ _ o _ halook, h4]
        · rw [hst, add_pg_pg_objects, sub_pg_pg_objects, hps,
            sumBy_ainsert_present _ _ _ o _ halook, h5]
        · rw [hoc.1, hos, h6]
        · rw [hoc.2.1, hos, h7]
        · rw [hoc.2.2.1, hos, h8]
        · rw [hoc.2.2.2.1, hos, h9]
        · rw [hoc.2.2.2.2, hos, h10]

theorem applyOsdUpdate_stats_absent (m : PGMap) (p : Nat × osd_stat_t)
    (h : alookup m.osd_stat p.1 = none) :
    (m.applyOsdUpdate p).stats = m.stats.add_osd p.2 := by
  unfold PGMap.applyOsdUpdate
  simp [h, PGMap.stat_osd_add]

theorem applyOsdUpdate_stats_present (m : PGMap) (p : Nat × osd_stat_t)
    (o : osd_stat_t) (h : alookup m.osd_stat p.1 = some o) :
    (m.applyOsdUpdate p).stats = (m.stats.sub_osd o).add_osd p.2 := by
  unfold PGMap.applyOsdUpdate
  simp [h, PGMap.stat_osd_sub, PGMap.stat_osd_add]

theorem applyOsdRm_absent (m : PGMap) (i : Nat)
    (h : alookup m.osd_stat i = none) : m.applyOsdRm i = m := by
  unfold PGMap.applyOsdRm
  simp [h]

theorem applyOsdRm_present_osd_stat (m : PGMap) (i : Nat) (o : osd_stat_t)
    (h : alookup m.osd_stat i = some o) :
    (m.applyOsdRm i).osd_stat = aerase m.osd_stat i := by
  unfold PGMap.applyOsdRm
  simp [h, PGMap.stat_osd_sub]

theorem applyOsdRm_present_stats (m : PGMap) (i : Nat) (o : osd_stat_t)
    (h : alookup m.osd_stat i = some o) :
    (m.applyOsdRm i).stats = m.stats.sub_osd o := by
  unfold PGMap.applyOsdRm
  simp [h, PGMap.stat_osd_sub]

theorem agg_applyOsdUpdate (m : PGMap) (p : Nat × osd_stat_t)
    (hosd : (m.osd_stat.map Prod.fst).Nodup)
    (hc : m.AggConsistent) :
    ((m.applyOsdUpdate p).osd_stat.map Prod.fst).Nodup ∧
    (m.applyOsdUpdate p).AggConsistent := by
  obtain ⟨h1, h2, h3, h4, h5, h6, h7, h8, h9, h10⟩ := hc
  have hos := applyOsdUpdate_osd_stat m p
  have hpgside := applyOsdUpdate_pg_side m p
  have hpc := applyOsdUpdate_pg_counters m p
  refine ⟨by rw [hos]; exact nodup_keys_ainsert _ _ _ hosd, ?_⟩
  cases halook : alookup m.osd_stat p.1 with
  | none =>
      have hst := applyOsdUpdate_stats_absent m p halook
      refine ⟨?_, ?_, ?_, ?_, ?_, ?_, ?_, ?_, ?_, ?_⟩
      · rw [hpc.1, hpgside.1, h1]
      · intro st
        rw [hpc.2.1, hpgside.1, h2 st]
      · rw [hpc.2.2.1, hpgside.1, h3]
      · rw [hpc.2.2.2.1, hpgside.1, h4]
      · rw [hpc.2.2.2.2, hpgside.1, h5]
      · rw [hst, add_osd_num_osd, hos, h6, length_ainsert_absent _ _ _ halook]
        push_cast
        ring
      · rw [hst, add_osd_osd_kb, hos, sumBy_ainsert_absent _ _ _ _ halook, h7]
      · rw [hst, add_osd_osd_kb_used, hos, sumBy_ainsert_absent _ _ _ _ halook, h8]
      · rw [hst, add_osd_osd_kb_avail, hos, sumBy_ainsert_absent _ _ _ _ halook, h9]
      · rw [hst, add_osd_osd_objects, hos, sumBy_ainsert_absent _ _ _ _ halook, h10]
  | some o =>
      have hst := applyOsdUpdate_stats_present m p o halook
      refine ⟨?_, ?_, ?_, ?_, ?_, ?_, ?_, ?_, ?_, ?_⟩
      · rw [hpc.1, hpgside.1, h1]
      · intro st
        rw [hpc.2.1, hpgside.1, h2 st]
      · rw [hpc.2.2.1, hpgside.1, h3]
      · rw [hpc.2.2.2.1, hpgside.1, h4]
      · rw [hpc.2.2.2.2, hpgside.1, h5]
      · rw [hst, add_osd_num_osd, sub_osd_num_osd, hos, h6,
          length_ainsert_present _ _ _ o halook]
        ring
      · rw [hst, add_osd_osd_kb, sub_osd_osd_kb, hos,
          sumBy_ainsert_present _ _ _ o _ halook, h7]
      · rw [hst, add_osd_osd_kb_used, sub_osd_osd_kb_used, hos,
          sumBy_ainsert_present _ _ _ o _ halook, h8]
      · rw [hst, add_osd_osd_kb_avail, sub_osd_osd_kb_avail, hos,
          sumBy_ainsert_present _ _ _ o _ halook, h9]
      · rw [hst, add_osd_osd_objects, sub_osd_osd_objects, hos,
          sumBy_ainsert_present _ _ _ o _ halook, h10]

theorem agg_applyOsdRm (m : PGMap) (i : Nat)
    (hosd : (m.osd_stat.map Prod.fst).Nodup)
    (hc : m.AggConsistent) :
    ((m.applyOsdRm i).osd_stat.map Prod.fst).Nodup ∧
    (m.applyOsdRm i).AggConsistent := by
  cases halook : alookup m.osd_stat i with
  | none =>
      rw [applyOsdRm_absent m i halook]
      exact ⟨hosd, hc⟩
  | some o =>
      obtain ⟨h1, h2, h3, h4, h5, h6, h7, h8, h9, h10⟩ := hc
      have hos := applyOsdRm_present_osd_stat m i o halook
      have hst := applyOsdRm_present_stats m i o halook
      have hpgside := applyOsdRm_pg_side m i
      have hpc := applyOsdRm_pg_counters m i
      refine ⟨by rw [hos]; exact nodup_keys_aerase _ _ hosd, ?_⟩
      refine ⟨?_, ?_, ?_, ?_, ?_, ?_, ?_, ?_, ?_, ?_⟩
      · rw [hpc.1, hpgside.1, h1]
      · intro st
        rw [hpc.2.1, hpgside.1, h2 st]
      · rw [hpc.2.2.1, hpgside.1, h3]
      · rw [hpc.2.2.2.1, hpgside.1, h4]
      · rw [hpc.2.2.2.2, hpgside.1, h5]
      · rw [hst, sub_osd_num_osd, hos, h6, length_aerase_present _ _ o halook]
        push_cast
        ring
      · rw [hst, sub_osd_osd_kb, hos, sumBy_aerase_present _ _ o _ halook, h7]
      · rw [hst, sub_osd_osd_kb_used, hos, sumBy_aerase_present _ _ o _ halook, h8]
      · rw [hst, sub_osd_osd_kb_avail, hos, sumBy_aerase_present _ _ o _ halook, h9]
      · rw [hst, sub_osd_osd_objects, hos, sumBy_aerase_present _ _ o _ halook, h10]

theorem applyPgUpdate_creating_absent (m : PGMap) (p : Nat × pg_stat_t)
    (h : alookup m.pg_stat p.1 = none) :
    (m.applyPgUpdate p).creating_pgs =
      if p.2.state &&& PG_STATE_CREATING ≠ 0 then insert p.1 m.creating_pgs
      else m.creating_pgs := by
  unfold PGMap.applyPgUpdate
  simp [h, PGMap.stat_pg_add]

theorem applyPgUpdate_creating_present (m : PGMap) (p : Nat × pg_stat_t)
    (o : pg_stat_t) (h : alookup m.pg_stat p.1 = some o) :
    (m.applyPgUpdate p).creating_pgs =
      if p.2.state &&& PG_STATE_CREATING ≠ 0 then
        insert p.1 (if o.state &&& PG_STATE_CREATING ≠ 0 then
          m.creating_pgs.erase p.1 else m.creating_pgs)
      else
        (if o.state &&& PG_STATE_CREATING ≠ 0 then
          m.creating_pgs.erase p.1 else m.creating_pgs) := by
  unfold PGMap.applyPgUpdate
  simp [h, PGMap.stat_pg_sub, PGMap.stat_pg_add]

theorem creating_applyPgUpdate (m : PGMap) (p : Nat × pg_stat_t)
    (hcr : m.CreatingConsistent) : (m.applyPgUpdate p).CreatingConsistent := by
  intro i
  have hps := applyPgUpdate_pg_stat m p
  rw [hps]
  cases halook : alookup m.pg_stat p.1 with
  | none =>
      rw [applyPgUpdate_creating_absent m p halook]
      by_cases hip : i = p.1
      · subst hip
        rw [alookup_ainsert_self]
        by_cases hb : p.2.state &&& PG_STATE_CREATING ≠ 0
        · simp [hb]
        · have hno : p.1 ∉ m.creating_pgs := by
            rw [hcr p.1, halook]
            rintro ⟨s, hs, -⟩
            exact Option.noConfusion hs
          simp [hb, hno]
      · rw [alookup_ainsert_ne _ _ _ _ hip]
        by_cases hb : p.2.state &&& PG_STATE_CREATING ≠ 0
        · rw [if_pos hb, Finset.mem_insert]
          constructor
          · rintro (hc | hc)
            · exact absurd hc hip
            · exact (hcr i).mp hc
          · intro hc
            exact Or.inr ((hcr i).mpr hc)
        · rw [if_neg hb]
          exact hcr i
  | some o =>
      rw [applyPgUpdate_creating_present m p o halook]
      by_cases hip : i = p.1
      · subst hip
        rw [alookup_ainsert_self]
        by_cases hb : p.2.state &&& PG_STATE_CREATING ≠ 0
        · simp [hb]
        · rw [if_neg hb]
          by_cases hob : o.state &&& PG_STATE_CREATING ≠ 0
          · rw [if_pos hob]
            simp [hb, Finset.mem_erase]
          · rw [if_neg hob]
            have hno : p.1 ∉ m.creating_pgs := by
              rw [hcr p.1, halook]
              rintro ⟨s, hs, hsb⟩
              cases hs
              exact hob hsb
            simp [hb, hno]
      · rw [alookup_ainsert_ne _ _ _ _ hip]
        have hmid : ∀ c : Finset Nat,
            (i ∈ (if o.state &&& PG_STATE_CREATING ≠ 0 then c.erase p.1 else c)) ↔
              i ∈ c := by
          intro c
          by_cases hob : o.state &&& PG_STATE_CREATING ≠ 0
          · rw [if_pos hob, Finset.mem_erase]
            exact ⟨fun hc => hc.2, fun hc => ⟨hip, hc⟩⟩
          · rw [if_neg hob]
        by_cases hb : p.2.state &&& PG_STATE_CREATING ≠ 0
        · rw [if_pos hb, Finset.mem_insert]
          constructor
          · rintro (hc | hc)
            · exact absurd hc hip
            · exact (hcr i).mp ((hmid m.creating_pgs).mp hc)
          · intro hc
            exact Or.inr ((hmid m.creating_pgs).mpr ((hcr i).mpr hc))
        · rw [if_neg hb, hmid m.creating_pgs]
          exact hcr i

theorem seen_applyPgUpdate (m : PGMap) (p : Nat × pg_stat_t)
    (hs : m.SeenSuperset) : (m.applyPgUpdate p).SeenSuperset := by
  intro i hi
  rw [applyPgUpdate_pg_set]
  rw [applyPgUpdate_pg_stat] at hi
  by_cases hip : i = p.1
  · subst hip
    cases halook : alookup m.pg_stat p.1 with
    | none =>
        rw [if_pos rfl]
        exact Finset.mem_insert_self _ _
    | some o =>
        rw [if_neg (fun hc => Option.noConfusion hc)]
        exact hs p.1 (by rw [halook]; rfl)
  · rw [alookup_ainsert_ne _ _ _ _ hip] at hi
    have hmem := hs i hi
    split
    · exact Finset.mem_insert_of_mem hmem
    · exact hmem

theorem good_applyPgUpdate (m : PGMap) (p : Nat × pg_stat_t)
    (hg : m.Good) : (m.applyPgUpdate p).Good := by
  obtain ⟨hpg, hosd, hh, hagg, hcr, hs⟩ := hg
  obtain ⟨h1, h2, h3⟩ := agg_applyPgUpdate m p hpg hh hagg
  exact ⟨h1, by rw [applyPgUpdate_osd_stat]; exact hosd, h2, h3,
    creating_applyPgUpdate m p hcr, seen_applyPgUpdate m p hs⟩

theorem good_applyOsdUpdate (m : PGMap) (p : Nat × osd_stat_t)
    (hg : m.Good) : (m.applyOsdUpdate p).Good := by
  obtain ⟨hpg, hosd, hh, hagg, hcr, hs⟩ := hg
  obtain ⟨h1, h2⟩ := agg_applyOsdUpdate m p hosd hagg
  have hside := applyOsdUpdate_pg_side m p
  have hpc := applyOsdUpdate_pg_counters m p
  refine ⟨by rw [hside.1]; exact hpg, h1, by rw [hpc.2.1]; exact hh, h2, ?_, ?_⟩
  · intro i
    rw [hside.2.2.1, hside.1]
    exact hcr i
  · intro i hi
    rw [hside.1] at hi
    rw [hside.2.1]
    exact hs i hi

theorem good_applyOsdRm (m : PGMap) (i : Nat)
    (hg : m.Good) : (m.applyOsdRm i).Good := by
  obtain ⟨hpg, hosd, hh, hagg, hcr, hs⟩ := hg
  obtain ⟨h1, h2⟩ := agg_applyOsdRm m i hosd hagg
  have hside := applyOsdRm_pg_side m i
  have hpc := applyOsdRm_pg_counters m i
  refine ⟨by rw [hside.1]; exact hpg, h1, by rw [hpc.2.1]; exact hh, h2, ?_, ?_⟩
  · intro j
    rw [hside.2.2.1, hside.1]
    exact hcr j
  · intro j hj
    rw [hside.1] at hj
    rw [hside.2.1]
    exact hs j hj

theorem good_foldl_pg (l : List (Nat × pg_stat_t)) (m : PGMap)
    (hg : m.Good) : (l.foldl PGMap.applyPgUpdate m).Good := by
  induction l generalizing m with
  | nil => exact hg
  | cons hd t ih => exact ih _ (good_applyPgUpdate m hd hg)

theorem good_foldl_osd (l : List (Nat × osd_stat_t)) (m : PGMap)
    (hg : m.Good) : (l.foldl PGMap.applyOsdUpdate m).Good := by
  induction l generalizing m with
  | nil => exact hg
  | cons hd t ih => exact ih _ (good_applyOsdUpdate m hd hg)

theorem good_foldl_rm (l : List Nat) (m : PGMap)
    (hg : m.Good) : (l.foldl PGMap.applyOsdRm m).Good := by
  induction l generalizing m with
  | nil => exact hg
  | cons hd t ih => exact ih _ (good_applyOsdRm m hd hg)

theorem good_set_version (m : PGMap) (v : Nat) (hg : m.Good) :
    ({ m with version := v } : PGMap).Good := hg

theorem good_set_epoch (m : PGMap) (e : Nat) (hg : m.Good) :
    ({ m with last_osdmap_epoch := e } : PGMap).Good := hg

theorem good_set_scan (m : PGMap) (e : Nat) (hg : m.Good) :
    ({ m with last_pg_scan := e } : PGMap).Good := hg

theorem good_congr (m m' : PGMap)
    (hps : m'.pg_stat = m.pg_stat) (hos : m'.osd_stat = m.osd_stat)
    (hst : m'.stats = m.stats) (hcr : m'.creating_pgs = m.creating_pgs)
    (hpset : m'.pg_set = m.pg_set) (hg : m.Good) : m'.Good := by
  obtain ⟨a1, a2, a3, a4, a5, a6⟩ := hg
  refine ⟨by rw [hps]; exact a1, by rw [hos]; exact a2,
    by rw [hst]; exact a3, ?_, ?_, ?_⟩
  · unfold PGMap.AggConsistent
    rw [hst, hps, hos]
    exact a4
  · intro i
    rw [hcr, hps]
    exact a5 i
  · intro i hi
    rw [hps] at hi
    rw [hpset]
    exact a6 i hi

theorem good_apply (m : PGMap) (inc : Incremental) (m' : PGMap)
    (hg : m.Good) (h : m.apply_incremental inc = some m') : m'.Good := by
  unfold PGMap.apply_incremental at h
  by_cases hv : inc.version ≠ m.version + 1
  · rw [if_pos hv] at h
    exact Option.noConfusion h
  · rw [if_neg hv] at h
    injection h with h
    subst h
    have g1 := good_set_version m (m.version + 1) hg
    have g2 := good_foldl_pg inc.pg_stat_updates _ g1
    have g3 := good_foldl_osd inc.osd_stat_updates _ g2
    have g4 := good_foldl_rm inc.osd_stat_rm _ g3
    refine good_congr _ _ ?_ ?_ ?_ ?_ ?_ g4 <;> (split <;> split <;> rfl)

theorem good_init : PGMap.init.Good := by
  refine ⟨List.nodup_nil, List.nodup_nil, List.nodup_nil, ?_, ?_, ?_⟩
  · exact ⟨rfl, fun st => rfl, rfl, rfl, rfl, rfl, rfl, rfl, rfl, rfl⟩
  · intro i
    simp [PGMap.init, alookup]
  · intro i hi
    simp [PGMap.init, alookup] at hi

theorem good_applySeq (ds : List Incremental) (m : PGMap)
    (h : PGMap.init.applySeq ds = some m) : m.Good := by
  suffices hgen : ∀ (ds : List Incremental) (m0 m : PGMap), m0.Good →
      m0.applySeq ds = some m → m.Good by
    exact hgen ds PGMap.init m good_init h
  intro ds
  induction ds with
  | nil =>
      intro m0 m hg h
      simp only [PGMap.applySeq] at h
      injection h with h
      subst h
      exact hg
  | cons d t ih =>
      intro m0 m hg h
      simp only [PGMap.applySeq] at h
      cases happ : m0.apply_incremental d with
      | none => rw [happ] at h; exact Option.noConfusion h
      | some m1 =>
          rw [happ] at h
          exact ih m1 m (good_apply m0 d m1 hg happ) h

/-!
### Concrete states used to instantiate the theorems
-/

/-- A stat record whose state has the creating bit set. -/
def pgA : pg_stat_t := ⟨1, 100, 1, 2⟩

/-- A stat record without the creating bit. -/
def pgB : pg_stat_t := ⟨2, 150, 2, 3⟩

/-- A device stat record. -/
def osdA : osd_stat_t := ⟨10, 4, 6, 2⟩

/-- First delta: one placement group, one device, both watermarks. -/
def inc1 : Incremental := ⟨1, [(1, pgA)], [(2, osdA)], [], 3, 5⟩

/-- Second delta: overwrite placement group 1 with a non-creating stat. -/
def inc2 : Incremental := ⟨2, [(1, pgB)], [], [], 0, 0⟩

/-- The state after applying `inc1` to the empty map. -/
def pgmapState1 : PGMap :=
  ⟨1, 3, 5, [(1, pgA)], {1}, [(2, osdA)], ⟨[(1, 1)], 1, 100, 1, 2, 1, 10, 4, 6, 2⟩, {1}⟩

/-- The state after applying `inc1` then `inc2` to the empty map. -/
def pgmapState2 : PGMap :=
  ⟨2, 3, 5, [(1, pgB)], {1}, [(2, osdA)], ⟨[(2, 1)], 1, 150, 2, 3, 1, 10, 4, 6, 2⟩, ∅⟩

example : PGMap.init.applySeq [inc1] = some pgmapState1 := by decide
example : PGMap.init.applySeq [inc1, inc2] = some pgmapState2 := by decide

theorem meta_foldl_pg (l : List (Nat × pg_stat_t)) (m : PGMap) :
    (l.foldl PGMap.applyPgUpdate m).version = m.version ∧
    (l.foldl PGMap.applyPgUpdate m).last_osdmap_epoch = m.last_osdmap_epoch ∧
    (l.foldl PGMap.applyPgUpdate m).last_pg_scan = m.last_pg_scan := by
  induction l generalizing m with
  | nil => exact ⟨rfl, rfl, rfl⟩
  | cons hd t ih =>
      have h := ih (m.applyPgUpdate hd)
      refine ⟨?_, ?_, ?_⟩ <;> simp only [List.foldl_cons]
      · rw [h.1, applyPgUpdate_version]
      · rw [h.2.1, applyPgUpdate_last_osdmap_epoch]
      · rw [h.2.2, applyPgUpdate_last_pg_scan]

theorem meta_foldl_osd (l : List (Nat × osd_stat_t)) (m : PGMap) :
    (l.foldl PGMap.applyOsdUpdate m).version = m.version ∧
    (l.foldl PGMap.applyOsdUpdate m).last_osdmap_epoch = m.last_osdmap_epoch ∧
    (l.foldl PGMap.applyOsdUpdate m).last_pg_scan = m.last_pg_scan := by
  induction l generalizing m with
  | nil => exact ⟨rfl, rfl, rfl⟩
  | cons hd t ih =>
      have h := ih (m.applyOsdUpdate hd)
      have hp := applyOsdUpdate_pg_side m hd
      refine ⟨?_, ?_, ?_⟩ <;> simp only [List.foldl_cons]
      · rw [h.1, hp.2.2.2.1]
      · rw [h.2.1, hp.2.2.2.2.1]
      · rw [h.2.2, hp.2.2.2.2.2]

theorem meta_foldl_rm (l : List Nat) (m : PGMap) :
    (l.foldl PGMap.applyOsdRm m).version = m.version ∧
    (l.foldl PGMap.applyOsdRm m).last_osdmap_epoch = m.last_osdmap_epoch ∧
    (l.foldl PGMap.applyOsdRm m).last_pg_scan = m.last_pg_scan := by
  induction l generalizing m with
  | nil => exact ⟨rfl, rfl, rfl⟩
  | cons hd t ih =>
      have h := ih (m.applyOsdRm hd)
      have hp := applyOsdRm_pg_side m hd
      refine ⟨?_, ?_, ?_⟩ <;> simp only [List.foldl_cons]
      · rw [h.1, hp.2.2.2.1]
      · rw [h.2.1, hp.2.2.2.2.1]
      · rw [h.2.2, hp.2.2.2.2.2]

theorem apply_version (m : PGMap) (inc : Incremental) (m' : PGMap)
    (h : m.apply_incremental inc = some m') : m'.version = m.version + 1 := by
  unfold PGMap.apply_incremental at h
  by_cases hv : inc.version ≠ m.version + 1
  · rw [if_pos hv] at h
    exact Option.noConfusion h
  · rw [if_neg hv] at h
    injection h with h
    subst h
    have h1 := meta_foldl_pg inc.pg_stat_updates { m with version := m.version + 1 }
    have h2 := meta_foldl_osd inc.osd_stat_updates
      (inc.pg_stat_updates.foldl PGMap.applyPgUpdate { m with version := m.version + 1 })
    have h3 := meta_foldl_rm inc.osd_stat_rm
      (inc.osd_stat_updates.foldl PGMap.applyOsdUpdate
        (inc.pg_stat_updates.foldl PGMap.applyPgUpdate { m with version := m.version + 1 }))
    split <;> split <;> ((try dsimp only); rw [h3.1, h2.1, h1.1])

theorem apply_watermarks (m : PGMap) (inc : Incremental) (m' : PGMap)
    (h : m.apply_incremental inc = some m') :
    m'.last_osdmap_epoch =
      (if inc.osdmap_epoch ≠ 0 then inc.osdmap_epoch else m.last_osdmap_epoch) ∧
    m'.last_pg_scan = (if inc.pg_scan ≠ 0 then inc.pg_scan else m.last_pg_scan) := by
  unfold PGMap.apply_incremental at h
  by_cases hv : inc.version ≠ m.version + 1
  · rw [if_pos hv] at h
    exact Option.noConfusion h
  · rw [if_neg hv] at h
    injection h with h
    subst h
    have h1 := meta_foldl_pg inc.pg_stat_updates { m with version := m.version + 1 }
    have h2 := meta_foldl_osd inc.osd_stat_updates
      (inc.pg_stat_updates.foldl PGMap.applyPgUpdate { m with version := m.version + 1 })
    have h3 := meta_foldl_rm inc.osd_stat_rm
      (inc.osd_stat_updates.foldl PGMap.applyOsdUpdate
        (inc.pg_stat_updates.foldl PGMap.applyPgUpdate { m with version := m.version + 1 }))
    by_cases he : inc.osdmap_epoch ≠ 0 <;> by_cases hsc : inc.pg_scan ≠ 0
    · rw [if_pos he, if_pos hsc, if_pos hsc, if_pos he]
      exact ⟨rfl, rfl⟩
    · rw [if_pos he, if_neg hsc, if_neg hsc, if_pos he]
      refine ⟨rfl, ?_⟩
      dsimp only
      rw [h3.2.2, h2.2.2, h1.2.2]
    · rw [if_neg he, if_pos hsc, if_pos hsc, if_neg he]
      refine ⟨?_, rfl⟩
      dsimp only
      rw [h3.2.1, h2.2.1, h1.2.1]
    · rw [if_neg he, if_neg hsc, if_neg hsc, if_neg he]
      constructor
      · rw [h3.2.1, h2.2.1, h1.2.1]
      · rw [h3.2.2, h2.2.2, h1.2.2]

/-!
### The claims
-/

/-- C1: for every sequence of valid increasing-version deltas applied via
`apply_incremental` from the freshly-constructed empty `PGMap`, after each
apply every aggregate counter (`num_pg`, `num_pg_by_state` per bucket,
`total_pg_num_bytes`, `total_pg_num_kb`, `total_pg_num_objects`, `num_osd`,
`total_osd_kb`, `total_osd_kb_used`, `total_osd_kb_avail`,
`total_osd_num_objects`) equals the sum of the corresponding field over all
entities currently present in `pg_stat` and `osd_stat`. -/
theorem pgmap_aggregate_consistency (ds : List Incremental) (m : PGMap)
    (h : PGMap.init.applySeq ds = some m) : m.AggConsistent :=
  (good_applySeq ds m h).2.2.2.1

theorem pgmap_aggregate_consistency_witness : pgmapState2.AggConsistent :=
  pgmap_aggregate_consistency [inc1, inc2] pgmapState2 (by decide)

/-- C2: a delta whose version equals `version + 1` is applied successfully
and increases `version` by exactly 1; a delta whose version differs never
mutates the state and signals the fatal fault (`none`, modelling the
`assert` abort, which in the source fires before any mutation). -/
theorem pgmap_version_gate (m : PGMap) (inc : Incremental) :
    (inc.version = m.version + 1 →
      ∃ m', m.apply_incremental inc = some m' ∧ m'.version = m.version + 1) ∧
    (inc.version ≠ m.version + 1 → m.apply_incremental inc = none) := by
  constructor
  · intro hv
    cases happ : m.apply_incremental inc with
    | none =>
        unfold PGMap.apply_incremental at happ
        rw [if_neg (by simp [hv])] at happ
        exact Option.noConfusion happ
    | some m' => exact ⟨m', rfl, apply_version m inc m' happ⟩
  · intro hv
    unfold PGMap.apply_incremental
    rw [if_pos hv]

theorem pgmap_version_gate_witness :
    PGMap.init.apply_incremental inc2 = none :=
  (pgmap_version_gate PGMap.init inc2).2 (by decide)

/-- C4: after every successful `apply_incremental` on any valid delta
sequence from the empty state, a placement-group id is in the creating set
iff its current stat record in `pg_stat` has the creating bit set; in
particular the creating set is contained in the keys of `pg_stat`. -/
theorem pgmap_creating_set_correct (ds : List Incremental) (m : PGMap)
    (h : PGMap.init.applySeq ds = some m) :
    (∀ i : Nat, i ∈ m.creating_pgs ↔
      ∃ s, alookup m.pg_stat i = some s ∧ s.state &&& PG_STATE_CREATING ≠ 0) ∧
    ∀ i ∈ m.creating_pgs, i ∈ m.pg_stat.map Prod.fst := by
  have hg := good_applySeq ds m h
  refine ⟨hg.2.2.2.2.1, ?_⟩
  intro i hi
  obtain ⟨s, hs, -⟩ := (hg.2.2.2.2.1 i).mp hi
  exact mem_keys_of_alookup_isSome _ _ (by rw [hs]; rfl)

theorem pgmap_creating_set_correct_witness :
    1 ∈ pgmapState1.creating_pgs ↔
      ∃ s, alookup pgmapState1.pg_stat 1 = some s ∧
        s.state &&& PG_STATE_CREATING ≠ 0 :=
  (pgmap_creating_set_correct [inc1] pgmapState1 (by decide)).1 1

/-- C6: for every successfully applied delta, a watermark field of value 0
leaves the corresponding stored watermark unchanged, and a non-zero value
overwrites it with exactly that value. -/
theorem pgmap_watermark_sparsity (m : PGMap) (inc : Incremental) (m' : PGMap)
    (h : m.apply_incremental inc = some m') :
    (inc.osdmap_epoch = 0 → m'.last_osdmap_epoch = m.last_osdmap_epoch) ∧
    (inc.osdmap_epoch ≠ 0 → m'.last_osdmap_epoch = inc.osdmap_epoch) ∧
    (inc.pg_scan = 0 → m'.last_pg_scan = m.last_pg_scan) ∧
    (inc.pg_scan ≠ 0 → m'.last_pg_scan = inc.pg_scan) := by
  have hw := apply_watermarks m inc m' h
  refine ⟨?_, ?_, ?_, ?_⟩
  · intro hz
    rw [hw.1, if_neg (by simp [hz])]
  · intro hnz
    rw [hw.1, if_pos hnz]
  · intro hz
    rw [hw.2, if_neg (by simp [hz])]
  · intro hnz
    rw [hw.2, if_pos hnz]

theorem pgmap_watermark_sparsity_witness :
    pgmapState2.last_osdmap_epoch = pgmapState1.last_osdmap_epoch ∧
    pgmapState2.last_pg_scan = pgmapState1.last_pg_scan := by
  have h := pgmap_watermark_sparsity pgmapState1 inc2 pgmapState2 (by decide)
  exact ⟨h.1 (by decide), h.2.2.1 (by decide)⟩

theorem applySeq_append (m : PGMap) (l1 l2 : List Incremental) :
    m.applySeq (l1 ++ l2) =
      match m.applySeq l1 with
      | none => none
      | some m1 => m1.applySeq l2 := by
  induction l1 generalizing m with
  | nil => simp [PGMap.applySeq]
  | cons d t ih =>
      simp only [List.cons_append, PGMap.applySeq]
      cases m.apply_incremental d with
      | none => rfl
      | some m1 => exact ih m1

theorem pg_set_mono_applyPgUpdate (m : PGMap) (p : Nat × pg_stat_t) :
    m.pg_set ⊆ (m.applyPgUpdate p).pg_set := by
  rw [applyPgUpdate_pg_set]
  split
  · exact Finset.subset_insert _ _
  · exact Finset.Subset.refl _

theorem pg_set_mono_foldl_pg (l : List (Nat × pg_stat_t)) (m : PGMap) :
    m.pg_set ⊆ (l.foldl PGMap.applyPgUpdate m).pg_set := by
  induction l generalizing m with
  | nil => exact Finset.Subset.refl _
  | cons hd t ih =>
      exact Finset.Subset.trans (pg_set_mono_applyPgUpdate m hd)
        (ih (m.applyPgUpdate hd))

theorem mem_pg_set_foldl_pg (l : List (Nat × pg_stat_t)) (m : PGMap) (i : Nat)
    (hs : m.SeenSuperset) (hi : i ∈ l.map Prod.fst) :
    i ∈ (l.foldl PGMap.applyPgUpdate m).pg_set := by
  induction l generalizing m with
  | nil => simp at hi
  | cons hd t ih =>
      simp only [List.map_cons, List.mem_cons] at hi
      simp only [List.foldl_cons]
      rcases hi with hi | hi
      · subst hi
        have hmem : hd.1 ∈ (m.applyPgUpdate hd).pg_set :=
          seen_applyPgUpdate m hd hs hd.1
            (by rw [applyPgUpdate_pg_stat, alookup_ainsert_self]; rfl)
        exact Finset.mem_of_subset (pg_set_mono_foldl_pg t _) hmem
      · exact ih (m.applyPgUpdate hd) (seen_applyPgUpdate m hd hs) hi

theorem pgside_foldl_osd (l : List (Nat × osd_stat_t)) (m : PGMap) :
    (l.foldl PGMap.applyOsdUpdate m).pg_stat = m.pg_stat ∧
    (l.foldl PGMap.applyOsdUpdate m).pg_set = m.pg_set ∧
    (l.foldl PGMap.applyOsdUpdate m).creating_pgs = m.creating_pgs := by
  induction l generalizing m with
  | nil => exact ⟨rfl, rfl, rfl⟩
  | cons hd t ih =>
      have h := ih (m.applyOsdUpdate hd)
      have hp := applyOsdUpdate_pg_side m hd
      refine ⟨?_, ?_, ?_⟩ <;> simp only [List.foldl_cons]
      · rw [h.1, hp.1]
      · rw [h.2.1, hp.2.1]
      · rw [h.2.2, hp.2.2.1]

theorem pgside_foldl_rm (l : List Nat) (m : PGMap) :
    (l.foldl PGMap.applyOsdRm m).pg_stat = m.pg_stat ∧
    (l.foldl PGMap.applyOsdRm m).pg_set = m.pg_set ∧
    (l.foldl PGMap.applyOsdRm m).creating_pgs = m.creating_pgs := by
  induction l generalizing m with
  | nil => exact ⟨rfl, rfl, rfl⟩
  | cons hd t ih =>
      have h := ih (m.applyOsdRm hd)
      have hp := applyOsdRm_pg_side m hd
      refine ⟨?_, ?_, ?_⟩ <;> simp only [List.foldl_cons]
      · rw [h.1, hp.1]
      · rw [h.2.1, hp.2.1]
      · rw [h.2.2, hp.2.2.1]

theorem apply_pg_set_eq (m : PGMap) (inc : Incremental) (m' : PGMap)
    (h : m.apply_incremental inc = some m') :
    m'.pg_set = (inc.pg_stat_updates.foldl PGMap.applyPgUpdate
      { m with version := m.version + 1 }).pg_set := by
  unfold PGMap.apply_incremental at h
  by_cases hv : inc.version ≠ m.version + 1
  · rw [if_pos hv] at h
    exact Option.noConfusion h
  · rw [if_neg hv] at h
    injection h with h
    subst h
    have h2 := pgside_foldl_osd inc.osd_stat_updates
      (inc.pg_stat_updates.foldl PGMap.applyPgUpdate { m with version := m.version + 1 })
    have h3 := pgside_foldl_rm inc.osd_stat_rm
      (inc.osd_stat_updates.foldl PGMap.applyOsdUpdate
        (inc.pg_stat_updates.foldl PGMap.applyPgUpdate { m with version := m.version + 1 }))
    split <;> split <;> ((try dsimp only); rw [h3.2.1, h2.2.1])

theorem pg_set_mono_apply (m : PGMap) (inc : Incremental) (m' : PGMap)
    (h : m.apply_incremental inc = some m') : m.pg_set ⊆ m'.pg_set := by
  rw [apply_pg_set_eq m inc m' h]
  have hm := pg_set_mono_foldl_pg inc.pg_stat_updates
    { m with version := m.version + 1 }
  exact hm

theorem mem_pg_set_apply (m : PGMap) (inc : Incremental) (m' : PGMap)
    (hs : m.SeenSuperset) (i : Nat) (hi : i ∈ inc.pg_stat_updates.map Prod.fst)
    (h : m.apply_incremental inc = some m') : i ∈ m'.pg_set := by
  rw [apply_pg_set_eq m inc m' h]
  exact mem_pg_set_foldl_pg _ _ i hs hi

theorem pg_set_mono_applySeq (ds : List Incremental) (m m' : PGMap)
    (h : m.applySeq ds = some m') : m.pg_set ⊆ m'.pg_set := by
  induction ds generalizing m with
  | nil =>
      simp only [PGMap.applySeq] at h
      injection h with h
      subst h
      exact Finset.Subset.refl _
  | cons d t ih =>
      simp only [PGMap.applySeq] at h
      cases happ : m.apply_incremental d with
      | none => rw [happ] at h; exact Option.noConfusion h
      | some m1 =>
          rw [happ] at h
          exact Finset.Subset.trans (pg_set_mono_apply m d m1 happ) (ih m1 h)

/-- C5: once a placement-group id appears in some delta's placement-group
updates, it is in the seen-set `pg_set` of every subsequent state (for any
valid sequence from the empty state), and no apply step ever removes an
element from `pg_set`. -/
theorem pgmap_seen_set_monotone :
    (∀ (i : Nat) (ds1 : List Incremental) (d : Incremental)
      (ds2 : List Incremental) (m : PGMap),
      i ∈ d.pg_stat_updates.map Prod.fst →
      PGMap.init.applySeq (ds1 ++ d :: ds2) = some m → i ∈ m.pg_set) ∧
    (∀ (m : PGMap) (inc : Incremental) (m' : PGMap),
      m.apply_incremental inc = some m' → m.pg_set ⊆ m'.pg_set) := by
  constructor
  · intro i ds1 d ds2 m hi h
    rw [applySeq_append] at h
    cases hmid : PGMap.init.applySeq ds1 with
    | none =>
        rw [hmid] at h
        exact Option.noConfusion h
    | some mid =>
        rw [hmid] at h
        simp only [PGMap.applySeq] at h
        cases happ : mid.apply_incremental d with
        | none => rw [happ] at h; exact Option.noConfusion h
        | some mid2 =>
            rw [happ] at h
            have hg := good_applySeq ds1 mid hmid
            have hmem := mem_pg_set_apply mid d mid2 hg.2.2.2.2.2 i hi happ
            exact Finset.mem_of_subset (pg_set_mono_applySeq ds2 mid2 m h) hmem
  · exact pg_set_mono_apply

theorem pgmap_seen_set_monotone_witness : 1 ∈ pgmapState2.pg_set :=
  pgmap_seen_set_monotone.1 1 [] inc1 [inc2] pgmapState2 (by decide) (by decide)

theorem osd_stat_foldl_pg (l : List (Nat × pg_stat_t)) (m : PGMap) :
    (l.foldl PGMap.applyPgUpdate m).osd_stat = m.osd_stat := by
  induction l generalizing m with
  | nil => rfl
  | cons hd t ih =>
      simp only [List.foldl_cons]
      rw [ih (m.applyPgUpdate hd), applyPgUpdate_osd_stat]

theorem absent_after_osd_foldl (l : List (Nat × osd_stat_t)) (m : PGMap) (i : Nat)
    (habs : alookup m.osd_stat i = none) (hni : i ∉ l.map Prod.fst) :
    alookup (l.foldl PGMap.applyOsdUpdate m).osd_stat i = none := by
  induction l generalizing m with
  | nil => exact habs
  | cons hd t ih =>
      simp only [List.map_cons, List.mem_cons, not_or] at hni
      simp only [List.foldl_cons]
      refine ih (m.applyOsdUpdate hd) ?_ hni.2
      rw [applyOsdUpdate_osd_stat, alookup_ainsert_ne _ _ _ _ hni.1]
      exact habs

theorem applyOsdRm_absent_preserve (m : PGMap) (j i : Nat)
    (habs : alookup m.osd_stat i = none) :
    alookup (m.applyOsdRm j).osd_stat i = none := by
  cases hj : alookup m.osd_stat j with
  | none => rw [applyOsdRm_absent m j hj]; exact habs
  | some o =>
      rw [applyOsdRm_present_osd_stat m j o hj]
      by_cases hij : i = j
      · subst hij
        rw [hj] at habs
        exact Option.noConfusion habs
      · rw [alookup_aerase_ne _ _ _ hij]
        exact habs

theorem absent_after_rm_foldl (l : List Nat) (m : PGMap) (i : Nat)
    (habs : alookup m.osd_stat i = none) :
    alookup (l.foldl PGMap.applyOsdRm m).osd_stat i = none := by
  induction l generalizing m with
  | nil => exact habs
  | cons j t ih =>
      simp only [List.foldl_cons]
      exact ih (m.applyOsdRm j) (applyOsdRm_absent_preserve m j i habs)

theorem rm_foldl_skip (l : List Nat) (m : PGMap) (i : Nat)
    (habs : alookup m.osd_stat i = none) :
    l.foldl PGMap.applyOsdRm m =
      (l.filter (fun j => decide (j ≠ i))).foldl PGMap.applyOsdRm m := by
  induction l generalizing m with
  | nil => rfl
  | cons j t ih =>
      by_cases hij : j = i
      · subst hij
        have hskip : m.applyOsdRm j = m := applyOsdRm_absent m j habs
        rw [List.foldl_cons, hskip, List.filter_cons, if_neg (by simp)]
        exact ih m habs
      · rw [List.foldl_cons, List.filter_cons, if_pos (by simp [hij]),
          List.foldl_cons]
        exact ih (m.applyOsdRm j) (applyOsdRm_absent_preserve m j i habs)

theorem nodup_osd_applyOsdRm (m : PGMap) (j : Nat)
    (hnd : (m.osd_stat.map Prod.fst).Nodup) :
    ((m.applyOsdRm j).osd_stat.map Prod.fst).Nodup := by
  cases hj : alookup m.osd_stat j with
  | none => rw [applyOsdRm_absent m j hj]; exact hnd
  | some o =>
      rw [applyOsdRm_present_osd_stat m j o hj]
      exact nodup_keys_aerase _ _ hnd

theorem rm_foldl_removes (l : List Nat) (m : PGMap) (i : Nat)
    (hnd : (m.osd_stat.map Prod.fst).Nodup) (hi : i ∈ l) :
    alookup (l.foldl PGMap.applyOsdRm m).osd_stat i = none := by
  induction l generalizing m with
  | nil => simp at hi
  | cons j t ih =>
      simp only [List.mem_cons] at hi
      simp only [List.foldl_cons]
      rcases hi with hi | hi
      · subst hi
        refine absent_after_rm_foldl t (m.applyOsdRm i) i ?_
        cases hj : alookup m.osd_stat i with
        | none => rw [applyOsdRm_absent m i hj]; exact hj
        | some o =>
            rw [applyOsdRm_present_osd_stat m i o hj]
            exact alookup_aerase_self _ _ hnd
      · exact ih (m.applyOsdRm j) (nodup_osd_applyOsdRm m j hnd) hi

theorem apply_osd_stat_eq (m : PGMap) (inc : Incremental) (m' : PGMap)
    (h : m.apply_incremental inc = some m') :
    m'.osd_stat = (inc.osd_stat_rm.foldl PGMap.applyOsdRm
      (inc.osd_stat_updates.foldl PGMap.applyOsdUpdate
        (inc.pg_stat_updates.foldl PGMap.applyPgUpdate
          { m with version := m.version + 1 }))).osd_stat := by
  unfold PGMap.apply_incremental at h
  by_cases hv : inc.version ≠ m.version + 1
  · rw [if_pos hv] at h
    exact Option.noConfusion h
  · rw [if_neg hv] at h
    injection h with h
    subst h
    split <;> split <;> rfl

/-- C7: removing a device id that is absent from the store (and not
upserted by the same delta, so it is still absent when the removal loop
reaches it) is a no-op: the apply result is identical to applying the same
delta without that id in the removal set, and no error is signalled. -/
theorem pgmap_remove_absent_noop (m : PGMap) (inc : Incremental) (i : Nat)
    (hv : inc.version = m.version + 1)
    (hrm : i ∈ inc.osd_stat_rm)
    (habs : alookup m.osd_stat i = none)
    (hupd : i ∉ inc.osd_stat_updates.map Prod.fst) :
    m.apply_incremental inc =
      m.apply_incremental
        { inc with osd_stat_rm :=
            inc.osd_stat_rm.filter (fun j => decide (j ≠ i)) } ∧
    (m.apply_incremental inc).isSome := by
  have habs2 : alookup ((inc.osd_stat_updates.foldl PGMap.applyOsdUpdate
      (inc.pg_stat_updates.foldl PGMap.applyPgUpdate
        { m with version := m.version + 1 })).osd_stat) i = none := by
    refine absent_after_osd_foldl _ _ _ ?_ hupd
    rw [osd_stat_foldl_pg]
    exact habs
  have hfold := rm_foldl_skip inc.osd_stat_rm
    (inc.osd_stat_updates.foldl PGMap.applyOsdUpdate
      (inc.pg_stat_updates.foldl PGMap.applyPgUpdate
        { m with version := m.version + 1 })) i habs2
  constructor
  · unfold PGMap.apply_incremental
    rw [if_neg (by simp [hv]), if_neg (by simp [hv])]
    dsimp only
    rw [hfold]
  · unfold PGMap.apply_incremental
    rw [if_neg (by simp [hv])]
    rfl

/-- The delta used to instantiate the idempotent-removal claim. -/
def inc7 : Incremental := ⟨2, [], [], [7], 0, 0⟩

theorem pgmap_remove_absent_noop_witness :
    pgmapState1.apply_incremental inc7 =
      pgmapState1.apply_incremental
        { inc7 with osd_stat_rm :=
            inc7.osd_stat_rm.filter (fun j => decide (j ≠ 7)) } ∧
    (pgmapState1.apply_incremental inc7).isSome :=
  pgmap_remove_absent_noop pgmapState1 inc7 7
    (by decide) (by decide) (by decide) (by decide)

/-- C10: when the same device id is both upserted and removed by one delta,
the removal wins (upserts are processed before removals): after the apply
the id is absent from `osd_stat`, and the device aggregate counters equal
the sums over the remaining entries, so they account for neither the old
nor the new stat of that id. -/
theorem pgmap_upsert_remove_same_osd (ds : List Incremental) (m : PGMap)
    (inc : Incremental) (m' : PGMap) (i : Nat)
    (hreach : PGMap.init.applySeq ds = some m)
    (hupd : i ∈ inc.osd_stat_updates.map Prod.fst)
    (hrm : i ∈ inc.osd_stat_rm)
    (happ : m.apply_incremental inc = some m') :
    alookup m'.osd_stat i = none ∧
    m'.stats.num_osd = (m'.osd_stat.length : Int) ∧
    m'.stats.total_osd_kb = sumBy m'.osd_stat (fun s => (s.kb : Int)) ∧
    m'.stats.total_osd_kb_used = sumBy m'.osd_stat (fun s => (s.kb_used : Int)) ∧
    m'.stats.total_osd_kb_avail = sumBy m'.osd_stat (fun s => (s.kb_avail : Int)) ∧
    m'.stats.total_osd_num_objects =
      sumBy m'.osd_stat (fun s => (s.num_objects : Int)) := by
  have hg := good_applySeq ds m hreach
  have hg' := good_apply m inc m' hg happ
  obtain ⟨-, -, -, hagg, -, -⟩ := hg'
  obtain ⟨-, -, -, -, -, h6, h7, h8, h9, h10⟩ := hagg
  refine ⟨?_, h6, h7, h8, h9, h10⟩
  rw [apply_osd_stat_eq m inc m' happ]
  refine rm_foldl_removes _ _ _ ?_ hrm
  have g1 : ({ m with version := m.version + 1 } : PGMap).Good := hg
  have g2 := good_foldl_pg inc.pg_stat_updates _ g1
  have g3 := good_foldl_osd inc.osd_stat_updates _ g2
  exact g3.2.1

/-- New stat for the device that is upserted and removed in one delta. -/
def osdB : osd_stat_t := ⟨20, 8, 12, 5⟩

/-- A delta that upserts device 2 and also removes it. -/
def inc10 : Incremental := ⟨2, [], [(2, osdB)], [2], 0, 0⟩

/-- The state after `inc1` then `inc10`. -/
def pgmapState10 : PGMap :=
  ⟨2, 3, 5, [(1, pgA)], {1}, [], ⟨[(1, 1)], 1, 100, 1, 2, 0, 0, 0, 0, 0⟩, {1}⟩

theorem pgmap_upsert_remove_same_osd_witness :
    alookup pgmapState10.osd_stat 2 = none :=
  (pgmap_upsert_remove_same_osd [inc1] pgmapState1 inc10 pgmapState10 2
    (by decide) (by decide) (by decide) (by decide)).1

/-- C8 counterexample: `stat_zero` does NOT clear the creating set.  On the
concrete reachable state `pgmapState1` (creating set `{1}`), the claim
"`stat_zero` clears the creating set" is false. -/
theorem pgmap_stat_zero_counterexample :
    (pgmapState1.stat_zero).creating_pgs ≠ (∅ : Finset Nat) := by decide

/-- C8 amended: `stat_zero` sets every aggregate counter to zero and clears
the per-state histogram (`stats` becomes `PGStats.zero`), but it leaves the
creating set untouched. -/
theorem pgmap_stat_zero_amended (m : PGMap) :
    (m.stat_zero).stats = PGStats.zero ∧
    (m.stat_zero).creating_pgs = m.creating_pgs := ⟨rfl, rfl⟩

/-- C9 counterexample: a decode that fails mid-stream does NOT leave the
caller's state unchanged.  On input `[7]` the version is decoded (and
stored) before the placement-group map read fails, so the failed decode
leaves the state with version 7. -/
theorem pgmap_decode_partial_counterexample :
    (PGMap.decodeSt PGMap.init [7]).2 = none ∧
    (PGMap.decodeSt PGMap.init [7]).1 ≠ PGMap.init := by decide

/-- C9 amended: decode is not atomic on failure — the fields fully decoded
before the failure point remain overwritten in the caller's state; only a
decode that fails before any field is read (empty input) leaves the state
unchanged.  In particular a failure right after the version field leaves
exactly the version overwritten. -/
theorem pgmap_decode_failure_amended (m : PGMap) (v : Nat) :
    PGMap.decodeSt m [] = (m, none) ∧
    PGMap.decodeSt m [v] = ({ m with version := v }, none) := ⟨rfl, rfl⟩

theorem ainsert_eq_append {α : Type} (l : List (Nat × α)) (k : Nat) (v : α)
    (h : alookup l k = none) : ainsert l k v = l ++ [(k, v)] := by
  induction l with
  | nil => rfl
  | cons hd t ih =>
      by_cases hk : hd.1 = k
      · rw [alookup, if_pos hk] at h
        exact Option.noConfusion h
      · rw [alookup, if_neg hk] at h
        simp only [ainsert, if_neg hk, List.cons_append]
        rw [ih h]

theorem alookup_append_of_none {α : Type} (l1 l2 : List (Nat × α)) (k : Nat)
    (h : alookup l1 k = none) : alookup (l1 ++ l2) k = alookup l2 k := by
  induction l1 with
  | nil => rfl
  | cons hd t ih =>
      by_cases hk : hd.1 = k
      · rw [alookup, if_pos hk] at h
        exact Option.noConfusion h
      · rw [alookup, if_neg hk] at h
        simp only [List.cons_append, alookup, if_neg hk]
        exact ih h

theorem decPgStat_enc (s : pg_stat_t) (r : List Nat) :
    decPgStat (encPgStat s ++ r) = some (s, r) := rfl

theorem decOsdStat_enc (s : osd_stat_t) (r : List Nat) :
    decOsdStat (encOsdStat s ++ r) = some (s, r) := rfl

theorem decPgMapLoop_enc (l acc : List (Nat × pg_stat_t)) (rest : List Nat)
    (hnd : (l.map Prod.fst).Nodup)
    (hdisj : ∀ k ∈ l.map Prod.fst, alookup acc k = none) :
    decPgMapLoop l.length acc
      ((l.map (fun p => p.1 :: encPgStat p.2)).flatten ++ rest) =
      some (acc ++ l, rest) := by
  induction l generalizing acc with
  | nil => simp [decPgMapLoop]
  | cons hd t ih =>
      simp only [List.map_cons, List.flatten_cons, List.length_cons,
        List.cons_append, List.append_assoc]
      simp only [decPgMapLoop, decPgStat_enc]
      simp only [List.map_cons, List.nodup_cons] at hnd
      rw [ainsert_eq_append acc hd.1 hd.2 (hdisj hd.1 (List.mem_cons_self _ _))]
      have hdisj' : ∀ k ∈ t.map Prod.fst, alookup (acc ++ [(hd.1, hd.2)]) k = none := by
        intro k hk
        rw [alookup_append_of_none _ _ _ (hdisj k (List.mem_cons_of_mem _ hk))]
        rw [alookup, if_neg (fun hc : hd.1 = k => hnd.1 (by rw [hc]; exact hk))]
        rfl
      rw [ih (acc ++ [(hd.1, hd.2)]) hnd.2 hdisj']
      rw [List.append_assoc]
      rfl

theorem decPgMap_enc (l : List (Nat × pg_stat_t)) (rest : List Nat)
    (hnd : (l.map Prod.fst).Nodup) :
    decPgMap (encPgMap l ++ rest) = some (l, rest) := by
  simp only [encPgMap, List.cons_append, decPgMap]
  have h := decPgMapLoop_enc l [] rest hnd (fun k _ => rfl)
  rw [h]
  rfl

theorem decOsdMapLoop_enc (l acc : List (Nat × osd_stat_t)) (rest : List Nat)
    (hnd : (l.map Prod.fst).Nodup)
    (hdisj : ∀ k ∈ l.map Prod.fst, alookup acc k = none) :
    decOsdMapLoop l.length acc
      ((l.map (fun p => p.1 :: encOsdStat p.2)).flatten ++ rest) =
      some (acc ++ l, rest) := by
  induction l generalizing acc with
  | nil => simp [decOsdMapLoop]
  | cons hd t ih =>
      simp only [List.map_cons, List.flatten_cons, List.length_cons,
        List.cons_append, List.append_assoc]
      simp only [decOsdMapLoop, decOsdStat_enc]
      simp only [List.map_cons, List.nodup_cons] at hnd
      rw [ainsert_eq_append acc hd.1 hd.2 (hdisj hd.1 (List.mem_cons_self _ _))]
      have hdisj' : ∀ k ∈ t.map Prod.fst, alookup (acc ++ [(hd.1, hd.2)]) k = none := by
        intro k hk
        rw [alookup_append_of_none _ _ _ (hdisj k (List.mem_cons_of_mem _ hk))]
        rw [alookup, if_neg (fun hc : hd.1 = k => hnd.1 (by rw [hc]; exact hk))]
        rfl
      rw [ih (acc ++ [(hd.1, hd.2)]) hnd.2 hdisj']
      rw [List.append_assoc]
      rfl

theorem decOsdMap_enc (l : List (Nat × osd_stat_t)) (rest : List Nat)
    (hnd : (l.map Prod.fst).Nodup) :
    decOsdMap (encOsdMap l ++ rest) = some (l, rest) := by
  simp only [encOsdMap, List.cons_append, decOsdMap]
  have h := decOsdMapLoop_enc l [] rest hnd (fun k _ => rfl)
  rw [h]
  rfl

theorem rebuild_pg_proj (l : List (Nat × pg_stat_t)) (m : PGMap) :
    (l.foldl PGMap.decodeRebuildPg m).stats =
      l.foldl (fun t p => t.add_pg p.2) m.stats ∧
    (l.foldl PGMap.decodeRebuildPg m).creating_pgs =
      l.foldl (fun c p =>
        if p.2.state &&& PG_STATE_CREATING ≠ 0 then insert p.1 c else c)
        m.creating_pgs ∧
    (l.foldl PGMap.decodeRebuildPg m).pg_set =
      l.foldl (fun c p => insert p.1 c) m.pg_set ∧
    (l.foldl PGMap.decodeRebuildPg m).pg_stat = m.pg_stat ∧
    (l.foldl PGMap.decodeRebuildPg m).osd_stat = m.osd_stat ∧
    (l.foldl PGMap.decodeRebuildPg m).version = m.version ∧
    (l.foldl PGMap.decodeRebuildPg m).last_osdmap_epoch = m.last_osdmap_epoch ∧
    (l.foldl PGMap.decodeRebuildPg m).last_pg_scan = m.last_pg_scan := by
  induction l generalizing m with
  | nil => exact ⟨rfl, rfl, rfl, rfl, rfl, rfl, rfl, rfl⟩
  | cons hd t ih =>
      have h := ih (m.decodeRebuildPg hd)
      refine ⟨?_, ?_, ?_, ?_, ?_, ?_, ?_, ?_⟩ <;> simp only [List.foldl_cons]
      · rw [h.1]; rfl
      · rw [h.2.1]; rfl
      · rw [h.2.2.1]; rfl
      · rw [h.2.2.2.1]; rfl
      · rw [h.2.2.2.2.1]; rfl
      · rw [h.2.2.2.2.2.1]; rfl
      · rw [h.2.2.2.2.2.2.1]; rfl
      · rw [h.2.2.2.2.2.2.2]; rfl

theorem rebuild_osd_proj (l : List (Nat × osd_stat_t)) (m : PGMap) :
    (l.foldl (fun a p => a.stat_osd_add p.2) m).stats =
      l.foldl (fun t p => t.add_osd p.2) m.stats ∧
    (l.foldl (fun a p => a.stat_osd_add p.2) m).creating_pgs = m.creating_pgs ∧
    (l.foldl (fun a p => a.stat_osd_add p.2) m).pg_set = m.pg_set ∧
    (l.foldl (fun a p => a.stat_osd_add p.2) m).pg_stat = m.pg_stat ∧
    (l.foldl (fun a p => a.stat_osd_add p.2) m).osd_stat = m.osd_stat ∧
    (l.foldl (fun a p => a.stat_osd_add p.2) m).version = m.version ∧
    (l.foldl (fun a p => a.stat_osd_add p.2) m).last_osdmap_epoch =
      m.last_osdmap_epoch ∧
    (l.foldl (fun a p => a.stat_osd_add p.2) m).last_pg_scan = m.last_pg_scan := by
  induction l generalizing m with
  | nil => exact ⟨rfl, rfl, rfl, rfl, rfl, rfl, rfl, rfl⟩
  | cons hd t ih =>
      have h := ih (m.stat_osd_add hd.2)
      refine ⟨?_, ?_, ?_, ?_, ?_, ?_, ?_, ?_⟩ <;> simp only [List.foldl_cons]
      · rw [h.1]; rfl
      · rw [h.2.1]; rfl
      · rw [h.2.2.1]; rfl
      · rw [h.2.2.2.1]; rfl
      · rw [h.2.2.2.2.1]; rfl
      · rw [h.2.2.2.2.2.1]; rfl
      · rw [h.2.2.2.2.2.2.1]; rfl
      · rw [h.2.2.2.2.2.2.2]; rfl

/-- The raw state as it stands inside `decode` right after the five raw
fields have been read into a fresh (default-constructed) map. -/
def decodeBase (s : PGMap) : PGMap :=
  { version := s.version, last_osdmap_epoch := s.last_osdmap_epoch,
    last_pg_scan := s.last_pg_scan, pg_stat := s.pg_stat, pg_set := ∅,
    osd_stat := s.osd_stat, stats := PGStats.zero, creating_pgs := ∅ }

theorem decodeSt_encode (s : PGMap)
    (hpg : (s.pg_stat.map Prod.fst).Nodup)
    (hosd : (s.osd_stat.map Prod.fst).Nodup) :
    PGMap.decodeSt PGMap.init s.encode =
      (((s.pg_stat.foldl PGMap.decodeRebuildPg (decodeBase s)).osd_stat).foldl
          (fun a p => a.stat_osd_add p.2)
          (s.pg_stat.foldl PGMap.decodeRebuildPg (decodeBase s)), some []) := by
  have henc : s.encode = s.version :: (encPgMap s.pg_stat ++
      (encOsdMap s.osd_stat ++ [s.last_osdmap_epoch, s.last_pg_scan])) := by
    simp [PGMap.encode, List.append_assoc]
  rw [henc]
  simp only [PGMap.decodeSt]
  rw [decPgMap_enc s.pg_stat _ hpg]
  dsimp only
  rw [decOsdMap_enc s.osd_stat _ hosd]
  rfl

/-- C3: decoding the encoding of any well-formed state `s` into a fresh
map consumes the whole stream and reproduces `s`'s version, raw maps and
watermarks exactly, while the derived aggregates, creating set and
seen-set equal those recomputed from the raw entity maps by replaying
every entity through the same add path the apply engine uses. -/
theorem pgmap_encode_decode_roundtrip (s : PGMap)
    (hpg : (s.pg_stat.map Prod.fst).Nodup)
    (hosd : (s.osd_stat.map Prod.fst).Nodup) :
    (PGMap.decodeSt PGMap.init s.encode).2 = some [] ∧
    (PGMap.decodeSt PGMap.init s.encode).1.version = s.version ∧
    (PGMap.decodeSt PGMap.init s.encode).1.pg_stat = s.pg_stat ∧
    (PGMap.decodeSt PGMap.init s.encode).1.osd_stat = s.osd_stat ∧
    (PGMap.decodeSt PGMap.init s.encode).1.last_osdmap_epoch =
      s.last_osdmap_epoch ∧
    (PGMap.decodeSt PGMap.init s.encode).1.last_pg_scan = s.last_pg_scan ∧
    (PGMap.decodeSt PGMap.init s.encode).1.stats =
      recomputeStats s.pg_stat s.osd_stat ∧
    (PGMap.decodeSt PGMap.init s.encode).1.creating_pgs =
      recomputeCreating s.pg_stat ∧
    (PGMap.decodeSt PGMap.init s.encode).1.pg_set = recomputeSeen s.pg_stat := by
  have hD := decodeSt_encode s hpg hosd
  rw [hD]
  dsimp only
  have hpgproj := rebuild_pg_proj s.pg_stat (decodeBase s)
  have hosl : (s.pg_stat.foldl PGMap.decodeRebuildPg (decodeBase s)).osd_stat =
      s.osd_stat := hpgproj.2.2.2.2.1
  rw [hosl]
  have hoproj := rebuild_osd_proj s.osd_stat
    (s.pg_stat.foldl PGMap.decodeRebuildPg (decodeBase s))
  refine ⟨rfl, ?_, ?_, ?_, ?_, ?_, ?_, ?_, ?_⟩
  · rw [hoproj.2.2.2.2.2.1, hpgproj.2.2.2.2.2.1]
    rfl
  · rw [hoproj.2.2.2.1, hpgproj.2.2.2.1]
    rfl
  · rw [hoproj.2.2.2.2.1, hosl]
  · rw [hoproj.2.2.2.2.2.2.1, hpgproj.2.2.2.2.2.2.1]
    rfl
  · rw [hoproj.2.2.2.2.2.2.2, hpgproj.2.2.2.2.2.2.2]
    rfl
  · rw [hoproj.1, hpgproj.1]
    rfl
  · rw [hoproj.2.1, hpgproj.2.1]
    rfl
  · rw [hoproj.2.2.1, hpgproj.2.2.1]
    rfl

theorem pgmap_encode_decode_roundtrip_witness :
    (PGMap.decodeSt PGMap.init pgmapState1.encode).2 = some [] ∧
    (PGMap.decodeSt PGMap.init pgmapState1.encode).1.version =
      pgmapState1.version ∧
    (PGMap.decodeSt PGMap.init pgmapState1.encode).1.pg_stat =
      pgmapState1.pg_stat ∧
    (PGMap.decodeSt PGMap.init pgmapState1.encode).1.osd_stat =
      pgmapState1.osd_stat ∧
    (PGMap.decodeSt PGMap.init pgmapState1.encode).1.last_osdmap_epoch =
      pgmapState1.last_osdmap_epoch ∧
    (PGMap.decodeSt PGMap.init pgmapState1.encode).1.last_pg_scan =
      pgmapState1.last_pg_scan ∧
    (PGMap.decodeSt PGMap.init pgmapState1.encode).1.stats =
      recomputeStats pgmapState1.pg_stat pgmapState1.osd_stat ∧
    (PGMap.decodeSt PGMap.init pgmapState1.encode).1.creating_pgs =
      recomputeCreating pgmapState1.pg_stat ∧
    (PGMap.decodeSt PGMap.init pgmapState1.encode).1.pg_set =
      recomputeSeen pgmapState1.pg_stat :=
  pgmap_encode_decode_roundtrip pgmapState1 (by decide) (by decide)
